import Mathlib

/-!
Verification development for the IBC proof-verification core of this repository
(`crates/core/component/ibc/src/component/proof_verification.rs`).

The Rust source is shallowly embedded:

* `calculate_block_delay` divides `Duration`s through `f64` arithmetic
  (`as_secs_f64`, float division, `FloatCore::ceil`, a saturating `as u64` cast).
  We model the binary64 computation exactly: `flPair` implements round to
  nearest, ties to even, over nonnegative rationals represented as
  numerator/denominator pairs.  The model covers the positive normal range of
  binary64 (no overflow, underflow or subnormals arise for the values a
  `Duration` can produce, since every exponent involved is far inside
  `[-1074, 1023]`).
* Pure functions (`commit_packet`, `commit_acknowledgement`) become Lean
  functions; SHA-256 itself is an external crate and is passed as an abstract
  digest function.
* The stateful verifiers read collaborators through an `Env` record (storage
  reads, the ics23 proof oracle, protobuf codecs); `async` reads become plain
  fallible calls in the `Except Err` monad, sequenced exactly as the source
  sequences them.
* Types owned by the external `ibc_types2` crate (`Height`, `ClientState`,
  `verify_height`, `verify_delay_passed`, paths, prefixes) are not under the
  repository's sources; they are modelled from the spec where the spec
  describes them (each such definition says so in its doc comment).
-/

namespace PenumbraIbc

/-! ### An exact model of IEEE-754 binary64 rounding

`calculate_block_delay` in the source performs its division in `f64`.  The
definitions below model that arithmetic exactly: a nonnegative value is carried
as a `(numerator, denominator)` pair of naturals, and `flPair` rounds such a
rational to the binary64 grid (53-bit mantissa, round to nearest, ties to
even). -/

/-- Fuel-driven binary length: `bitlenAux fuel n` is the number of binary
digits of `n` provided `fuel` bounds the recursion depth.  Written with fuel so
that the kernel can evaluate it on literals. -/
def bitlenAux : Nat → Nat → Nat
  | 0, _ => 0
  | fuel + 1, n => if n = 0 then 0 else bitlenAux fuel (n / 2) + 1

/-- Number of binary digits of `n`: `0` for `0`, and otherwise the unique `l`
with `2 ^ (l - 1) ≤ n < 2 ^ l`. -/
def bitlen (n : Nat) : Nat := bitlenAux n n

/-- Round the nonnegative rational `a / b` (with `b > 0`) to the nearest
integer, ties to even: the IEEE-754 default rounding of a scaled mantissa. -/
def rne (a b : Nat) : Nat :=
  let q := a / b
  let r := a % b
  if 2 * r < b then q
  else if b < 2 * r then q + 1
  else if q % 2 = 0 then q else q + 1

/-- Whether the rational `a / b` is at least `2 ^ e` (for an `Int` exponent),
expressed without rational arithmetic. -/
def qGe (a b : Nat) (e : Int) : Bool :=
  if 0 ≤ e then b * 2 ^ e.toNat ≤ a else b ≤ a * 2 ^ (-e).toNat

/-- Binade exponent of the positive rational `a / b`: the unique `e` with
`2 ^ e ≤ a / b < 2 ^ (e + 1)`. -/
def elog (a b : Nat) : Int :=
  let d : Int := (bitlen a : Int) - (bitlen b : Int)
  if qGe a b d then d else d - 1

/-- Unrounded-exponent mantissa of `a / b`: the rational scaled into
`[2 ^ 52, 2 ^ 53]` and rounded to the nearest integer, ties to even. -/
def mant (a b : Nat) : Nat :=
  if elog a b ≤ 52 then rne (a * 2 ^ (52 - elog a b).toNat) b
  else rne a (b * 2 ^ (elog a b - 52).toNat)

/-- Round the nonnegative rational `a / b` (with `b > 0`) to the nearest
binary64 value, ties to even, returned as a pair whose denominator is a power
of two.  A mantissa that rounds up to `2 ^ 53` is renormalised into the next
binade, so for a nonzero argument the result is `m * 2 ^ (e - 52)` with
`2 ^ 52 ≤ m < 2 ^ 53`. -/
def flPair (a b : Nat) : Nat × Nat :=
  if a = 0 then (0, 1) else
  let m := mant a b
  let me : Nat × Int := if m = 2 ^ 53 then (2 ^ 52, elog a b + 1) else (m, elog a b)
  if 52 ≤ me.2 then (me.1 * 2 ^ (me.2 - 52).toNat, 1) else (me.1, 2 ^ (52 - me.2).toNat)

/-- Binary64 addition of two nonnegative values: exact rational sum, then one
rounding. -/
def fAdd (x y : Nat × Nat) : Nat × Nat := flPair (x.1 * y.2 + y.1 * x.2) (x.2 * y.2)

/-- Binary64 division of two nonnegative values: exact rational quotient, then
one rounding. -/
def fDiv (x y : Nat × Nat) : Nat × Nat := flPair (x.1 * y.2) (x.2 * y.1)

/-- Binary64 value of a natural number (Rust's `as f64` cast of an unsigned
integer, one rounding). -/
def fOfNat (n : Nat) : Nat × Nat := flPair n 1

/-- Rational value carried by a pair, for stating specifications. -/
def fVal (x : Nat × Nat) : ℚ := (x.1 : ℚ) / (x.2 : ℚ)

/-- Rust `core::time::Duration`: whole seconds (a `u64`) plus a sub-second
nanosecond part (kept `< 10 ^ 9` by construction in Rust). -/
structure Duration where
  secs : Nat
  nanos : Nat
deriving DecidableEq, Repr

/-- Nanoseconds in one second. -/
def nanosPerSec : Nat := 1000000000

/-- Total length of a duration in nanoseconds (its exact value). -/
def durationNanos (d : Duration) : Nat := d.secs * nanosPerSec + d.nanos

/-- Rust `Duration::is_zero`. -/
def Duration.is_zero (d : Duration) : Bool := d.secs = 0 && d.nanos = 0

/-- Rust `Duration::as_secs_f64`: `(secs as f64) + (nanos as f64) / (10^9 as f64)`,
every operation a binary64 operation. -/
def Duration.as_secs_f64 (d : Duration) : Nat × Nat :=
  fAdd (fOfNat d.secs) (fDiv (fOfNat d.nanos) (fOfNat nanosPerSec))

/-- Ceiling of a nonnegative binary64 value followed by Rust's saturating
`as u64` cast.  `FloatCore::ceil` is exact on binary64 (every binary64 value of
magnitude `≥ 2 ^ 52` is an integer), so the ceiling is the exact rational
ceiling; the cast clamps at `2 ^ 64 - 1`. -/
def fCeilU64 (x : Nat × Nat) : Nat := min ((x.1 + x.2 - 1) / x.2) (2 ^ 64 - 1)

/-- The source's `calculate_block_delay`: `0` when the expected block period is
zero, otherwise `ceil(delay_period_time.as_secs_f64() / max_expected_time_per_block.as_secs_f64())`
computed in binary64 and cast to `u64`. -/
def calculate_block_delay (delay_period_time max_expected_time_per_block : Duration) : Nat :=
  if max_expected_time_per_block.is_zero then 0
  else fCeilU64 (fDiv delay_period_time.as_secs_f64 max_expected_time_per_block.as_secs_f64)

/-- Exact real-arithmetic ceiling of `d / m` as an integer block count (the
quantity the spec's words describe), for comparison with the source's
binary64 computation. -/
def exactCeilBlocks (d m : Duration) : Nat :=
  (durationNanos d + durationNanos m - 1) / durationNanos m

/-! ### Errors

The source reports failures through `anyhow`; the spec names the error kinds.
One constructor per kind of §7 of the spec. -/

/-- Error kinds of the verification core (spec §7). -/
inductive Err where
  | clientNotFound
  | consensusStateNotFound
  | frozenClient
  | invalidHeight
  | delayNotElapsed
  | malformedProof
  | proofVerificationFailed
deriving DecidableEq, Repr

/-! ### The data model (spec §3)

`Height`, `ClientState`, `ConsensusState`, paths and prefixes are owned by the
external `ibc_types2` crate (not under the repository's sources) and are
modelled from the spec's §3 descriptions. -/

/-- Modelled from the spec: a `Height` is a "(revision_number, revision_height)
pair; ordered lexicographically by revision then height". -/
structure Height where
  revisionNumber : Nat
  revisionHeight : Nat
deriving DecidableEq, Repr

/-- Lexicographic strict order on heights (revision number first). -/
def Height.lt (a b : Height) : Bool :=
  decide (a.revisionNumber < b.revisionNumber) ||
    (decide (a.revisionNumber = b.revisionNumber) &&
      decide (a.revisionHeight < b.revisionHeight))

/-- Modelled from the spec: adding delay blocks to a recorded height advances
the revision height and keeps the revision number (ibc `Height::add`). -/
def Height.add (h : Height) (delta : Nat) : Height :=
  ⟨h.revisionNumber, h.revisionHeight + delta⟩

/-- A Merkle proof specification entry.  Opaque to the core: it is handed
unchanged to the external verification oracle. -/
abbrev ProofSpec := Nat

/-- Modelled from the spec: a `ClientState` "carries a frozen flag, a latest
trusted height, a set of Merkle proof specifications". -/
structure ClientState where
  frozen : Bool
  latestHeight : Height
  proofSpecs : List ProofSpec
deriving DecidableEq, Repr

/-- Rust `ClientState::is_frozen`. -/
def ClientState.is_frozen (cs : ClientState) : Bool := cs.frozen

/-- Modelled from the spec: a `ConsensusState` "carries a Merkle root and a
timestamp".  The root is opaque bytes. -/
structure ConsensusState where
  root : List Nat
  timestamp : Nat
deriving DecidableEq, Repr

/-- Modelled from the spec: "the height check `client_state.verify_height(proof_height)`
(proof height must not exceed what the local light client considers
trustworthy)", failing with `InvalidHeight`.  The check itself lives in the
external `ibc_types2` crate. -/
def ClientState.verify_height (cs : ClientState) (h : Height) : Except Err Unit :=
  if Height.lt cs.latestHeight h then .error .invalidHeight else .ok ()

/-- Modelled from the spec: step 5 of the Trust Resolver contract — "Confirm
BOTH of: `current_time ≥ processed_time + delay_period_time` AND
`current_height ≥ processed_height + delay_blocks`.  Fail with
`DelayNotElapsed` if either is false."  The check itself
(`TendermintClientState::verify_delay_passed`) lives in the external
`ibc_types2` crate; times are nanosecond timestamps. -/
def verify_delay_passed (current_time : Nat) (current_height : Height)
    (processed_time : Nat) (processed_height : Height)
    (delay_period_time : Duration) (delay_period_blocks : Nat) : Except Err Unit :=
  if current_time < processed_time + durationNanos delay_period_time then
    .error .delayNotElapsed
  else if Height.lt current_height (processed_height.add delay_period_blocks) then
    .error .delayNotElapsed
  else .ok ()

/-- A commitment prefix: the counterparty's store prefix, opaque here beyond
being prepended to the path. -/
structure MerklePrefix where
  keyPrefixStr : String
deriving DecidableEq, Repr

/-- A full Merkle path: the ordered list of keys handed to the oracle. -/
structure MerklePath where
  keyPath : List String
deriving DecidableEq, Repr

/-- Modelled from the spec: "build the full Merkle path by applying `prefix`
to the string form of `path`" with "the two-item ordering (apply prefix, then
path)". -/
def MerklePrefix.apply (p : MerklePrefix) (keys : List String) : MerklePath :=
  ⟨p.keyPrefixStr :: keys⟩

/-- A structured Merkle proof, opaque to the core (only the oracle looks
inside). -/
structure MerkleProof where
  bytes : List Nat
deriving DecidableEq, Repr

/-- Serialized proof bytes as carried by a wire message, before conversion to
the structured `MerkleProof` form. -/
structure RawProof where
  bytes : List Nat
deriving DecidableEq, Repr

/-- Modelled from the spec: a typed `Path` — "a typed key (e.g. channel-end
path, commitment path, acknowledgement path, receipt path, sequence-receive
path)". -/
inductive Path where
  | channelEnd (portId channelId : String)
  | connection (connectionId : String)
  | clientState (clientId : String)
  | clientConsensusState (clientId : String) (epoch height : Nat)
  | commitment (portId channelId : String) (sequence : Nat)
  | ack (portId channelId : String) (sequence : Nat)
  | receipt (portId channelId : String) (sequence : Nat)
  | seqRecv (portId channelId : String)
deriving DecidableEq, Repr

/-- Modelled from the spec: a `Path` "serializes to a canonical string used as
the Merkle proof's leaf key" (the concrete formats live in
`ibc_types2::path`; the claims depend only on this map being fixed). -/
def Path.toStr : Path → String
  | .channelEnd p c => "channelEnds/ports/" ++ p ++ "/channels/" ++ c
  | .connection c => "connections/" ++ c
  | .clientState c => "clients/" ++ c ++ "/clientState"
  | .clientConsensusState c e h =>
      "clients/" ++ c ++ "/consensusStates/" ++ toString e ++ "-" ++ toString h
  | .commitment p c s =>
      "commitments/ports/" ++ p ++ "/channels/" ++ c ++ "/sequences/" ++ toString s
  | .ack p c s =>
      "acks/ports/" ++ p ++ "/channels/" ++ c ++ "/sequences/" ++ toString s
  | .receipt p c s =>
      "receipts/ports/" ++ p ++ "/channels/" ++ c ++ "/sequences/" ++ toString s
  | .seqRecv p c => "nextSequenceRecv/ports/" ++ p ++ "/channels/" ++ c

/-- The counterparty half of a connection: its client and its commitment
prefix (field `pfx` models the source's `counterparty.prefix`). -/
structure Counterparty where
  clientId : String
  pfx : MerklePrefix
deriving DecidableEq, Repr

/-- A `ConnectionEnd`: "links a local client to a counterparty prefix and
carries a `delay_period` duration" (spec §3). -/
structure ConnectionEnd where
  clientId : String
  counterparty : Counterparty
  delayPeriod : Duration
deriving DecidableEq, Repr

/-- Channel-level state compared by value against proof contents (spec §3);
its wire encoding is external, so the fields only need to carry identity. -/
structure ChannelEnd where
  channelState : Nat
  ordering : Nat
  remotePortId : String
  remoteChannelId : String
deriving DecidableEq, Repr

/-- An ibc timestamp; `nanoseconds` is its `u64` nanosecond reading. -/
structure Timestamp where
  nanos : Nat
deriving DecidableEq, Repr

/-- Rust `Timestamp::nanoseconds`. -/
def Timestamp.nanoseconds (t : Timestamp) : Nat := t.nanos

/-- An ibc timeout height: either no height limit or a concrete height. -/
inductive TimeoutHeight where
  | never
  | atHeight (h : Height)
deriving DecidableEq, Repr

/-- Rust `TimeoutHeight::commitment_revision_number` (0 when no timeout
height is set). -/
def TimeoutHeight.commitment_revision_number : TimeoutHeight → Nat
  | .never => 0
  | .atHeight h => h.revisionNumber

/-- Rust `TimeoutHeight::commitment_revision_height` (0 when no timeout
height is set). -/
def TimeoutHeight.commitment_revision_height : TimeoutHeight → Nat
  | .never => 0
  | .atHeight h => h.revisionHeight

/-- An ibc `Packet` (spec §3): "sequence number, source/destination
port+channel, opaque data, timeout height, timeout timestamp". -/
structure Packet where
  sequence : Nat
  port_on_a : String
  chan_on_a : String
  port_on_b : String
  chan_on_b : String
  data : List Nat
  timeout_height_on_b : TimeoutHeight
  timeout_timestamp_on_b : Timestamp
deriving DecidableEq, Repr

/-! ### Commitment functions (source lines 40–65) -/

/-- Big-endian byte expansion of a `u64` (`to_be_bytes`). -/
def u64_be_bytes (n : Nat) : List Nat :=
  [n / 2 ^ 56 % 256, n / 2 ^ 48 % 256, n / 2 ^ 40 % 256, n / 2 ^ 32 % 256,
   n / 2 ^ 24 % 256, n / 2 ^ 16 % 256, n / 2 ^ 8 % 256, n % 256]

/-- The source's `commit_packet`: SHA-256 of the concatenation of the
big-endian timeout timestamp, the big-endian timeout-height revision number
and revision height, and the SHA-256 of the packet data.  `sha` abstracts the
external SHA-256 implementation. -/
def commit_packet (sha : List Nat → List Nat) (packet : Packet) : List Nat :=
  sha (u64_be_bytes packet.timeout_timestamp_on_b.nanoseconds
    ++ u64_be_bytes packet.timeout_height_on_b.commitment_revision_number
    ++ u64_be_bytes packet.timeout_height_on_b.commitment_revision_height
    ++ sha packet.data)

/-- The source's `commit_acknowledgement`: SHA-256 of the raw bytes. -/
def commit_acknowledgement (sha : List Nat → List Nat) (ack_data : List Nat) : List Nat :=
  sha ack_data

/-! ### Wire messages (spec §6) -/

/-- `MsgRecvPacket`: packet, proof of the commitment on chain A, proof
height. -/
structure MsgRecvPacket where
  packet : Packet
  proof_commitment_on_a : RawProof
  proof_height_on_a : Height
deriving DecidableEq, Repr

/-- `MsgAcknowledgement`: packet, acknowledgement bytes, proof of the ack on
chain B, proof height. -/
structure MsgAcknowledgement where
  packet : Packet
  acknowledgement : List Nat
  proof_acked_on_b : RawProof
  proof_height_on_b : Height
deriving DecidableEq, Repr

/-- `MsgTimeout`: packet, next receive sequence on chain B, proof of
non-receipt, proof height. -/
structure MsgTimeout where
  packet : Packet
  next_seq_recv_on_b : Nat
  proof_unreceived_on_b : RawProof
  proof_height_on_b : Height
deriving DecidableEq, Repr

/-! ### The external collaborators (spec §6)

The verifiers are generic over any state-read collaborator (`StateReadExt`),
proof oracle (ics23 via `MerkleProof::verify_membership` /
`verify_non_membership`) and protobuf codec.  `Env` packages those external
interfaces; each field mirrors one collaborator function of spec §6. -/

/-- The state-read collaborator, the proof-verification oracle and the wire
codecs, all external to the core. -/
structure Env where
  client_state : String → Except Err ClientState
  verified_consensus_state : Height → String → Except Err ConsensusState
  block_timestamp : Except Err Nat
  block_height : Except Err Nat
  client_update_height : String → Height → Except Err Height
  client_update_time : String → Height → Except Err Nat
  verify_membership : MerkleProof → List ProofSpec → List Nat → MerklePath →
    List Nat → Nat → Except Err Unit
  verify_non_membership : MerkleProof → List ProofSpec → List Nat → MerklePath →
    Except Err Unit
  decode_proof : RawProof → Except Err MerkleProof
  encode_channel_end : ChannelEnd → List Nat
  encode_connection_end : ConnectionEnd → List Nat
  encode_client_state : ClientState → List Nat
  encode_consensus_state : ConsensusState → List Nat
  encode_u64 : Nat → List Nat
  sha256 : List Nat → List Nat

/-! ### The Merkle proof adapter (source lines 79–104) -/

/-- The source's `verify_merkle_proof`: apply the prefix to the string form of
the path, then ask the oracle to confirm membership of `value` at that path
under `root` (start index 0). -/
def verify_merkle_proof (E : Env) (proof_specs : List ProofSpec)
    (pfx : MerklePrefix) (proof : MerkleProof) (root : List Nat) (path : Path)
    (value : List Nat) : Except Err Unit := do
  let merkle_path := pfx.apply [path.toStr]
  let _ ← E.verify_membership proof proof_specs root merkle_path value 0
  return ()

/-- The source's `verify_merkle_absence_proof`: apply the prefix to the string
form of the path, then ask the oracle to confirm that no value exists at that
path under `root`. -/
def verify_merkle_absence_proof (E : Env) (proof_specs : List ProofSpec)
    (pfx : MerklePrefix) (proof : MerkleProof) (root : List Nat) (path : Path) :
    Except Err Unit := do
  let merkle_path := pfx.apply [path.toStr]
  let _ ← E.verify_non_membership proof proof_specs root merkle_path
  return ()

/-! ### The verifiers (source lines 106–416) -/

/-- The source's `verify_channel_proof` (trait `ChannelProofVerifier`): fetch
the counterparty client state, reject a frozen client, fetch the verified
consensus state at the proof height, check the proof height against the
client's latest trusted height, then verify membership of the expected
channel against the trusted root. -/
def verify_channel_proof (E : Env) (connection : ConnectionEnd)
    (proof : MerkleProof) (proof_height : Height) (channel_id : String)
    (port_id : String) (expected_channel : ChannelEnd) : Except Err Unit := do
  let trusted_client_state ← E.client_state connection.clientId
  if trusted_client_state.is_frozen then throw Err.frozenClient
  let trusted_consensus_state ← E.verified_consensus_state proof_height connection.clientId
  trusted_client_state.verify_height proof_height
  let value := E.encode_channel_end expected_channel
  verify_merkle_proof E trusted_client_state.proofSpecs connection.counterparty.pfx
    proof trusted_consensus_state.root (Path.channelEnd port_id channel_id) value

/-- The source's `verify_connection_state`: height check on the supplied
client state, then membership of the expected connection end. -/
def verify_connection_state (E : Env) (client_state : ClientState)
    (height : Height) (pfx : MerklePrefix) (proof : MerkleProof)
    (root : List Nat) (conn_path_id : String)
    (expected_connection_end : ConnectionEnd) : Except Err Unit := do
  client_state.verify_height height
  let value := E.encode_connection_end expected_connection_end
  verify_merkle_proof E client_state.proofSpecs pfx proof root
    (Path.connection conn_path_id) value

/-- The source's `verify_client_full_state`: height check on the supplied
client state, then membership of the expected (serialized) client state. -/
def verify_client_full_state (E : Env) (client_state : ClientState)
    (height : Height) (pfx : MerklePrefix) (proof : MerkleProof)
    (root : List Nat) (client_state_path_id : String)
    (expected_client_state : ClientState) : Except Err Unit := do
  client_state.verify_height height
  let value := E.encode_client_state expected_client_state
  verify_merkle_proof E client_state.proofSpecs pfx proof root
    (Path.clientState client_state_path_id) value

/-- The source's `verify_client_consensus_state`: height check on the supplied
client state, then membership of the expected (serialized) consensus state. -/
def verify_client_consensus_state (E : Env) (client_state : ClientState)
    (height : Height) (pfx : MerklePrefix) (proof : MerkleProof)
    (root : List Nat) (client_id : String) (cons_epoch cons_height : Nat)
    (expected_consensus_state : ConsensusState) : Except Err Unit := do
  client_state.verify_height height
  let value := E.encode_consensus_state expected_consensus_state
  verify_merkle_proof E client_state.proofSpecs pfx proof root
    (Path.clientConsensusState client_id cons_epoch cons_height) value

/-- The source's `get_trusted_client_and_consensus_state` (the `inner` module's
Trust Resolver): client fetch, frozen check, consensus fetch, height check,
then the delay check against current chain time/height and the recorded
update time/height, with the hard-coded 20-second
`max_time_per_block`. -/
def get_trusted_client_and_consensus_state (E : Env) (client_id : String)
    (height : Height) (connection : ConnectionEnd) :
    Except Err (ClientState × ConsensusState) := do
  let trusted_client_state ← E.client_state client_id
  if trusted_client_state.is_frozen then throw Err.frozenClient
  let trusted_consensus_state ← E.verified_consensus_state height client_id
  let tm_client_state := trusted_client_state
  tm_client_state.verify_height height
  let current_timestamp ← E.block_timestamp
  let current_height ← E.block_height
  let processed_height ← E.client_update_height client_id height
  let processed_time ← E.client_update_time client_id height
  let max_time_per_block : Duration := ⟨20, 0⟩
  let delay_period_time := connection.delayPeriod
  let delay_period_blocks := calculate_block_delay delay_period_time max_time_per_block
  verify_delay_passed current_timestamp ⟨0, current_height⟩ processed_time
    processed_height delay_period_time delay_period_blocks
  return (tm_client_state, trusted_consensus_state)

/-- The source's `verify_packet_recv_proof`: trusted state via the Trust
Resolver, then membership of `commit_packet(packet)` at the commitment
path. -/
def verify_packet_recv_proof (E : Env) (connection : ConnectionEnd)
    (msg : MsgRecvPacket) : Except Err Unit := do
  let tc ← get_trusted_client_and_consensus_state E connection.clientId
    msg.proof_height_on_a connection
  let commitment_path := Path.commitment msg.packet.port_on_b msg.packet.chan_on_b
    msg.packet.sequence
  let commitment_bytes := commit_packet E.sha256 msg.packet
  let proof ← E.decode_proof msg.proof_commitment_on_a
  verify_merkle_proof E tc.1.proofSpecs connection.counterparty.pfx proof
    tc.2.root commitment_path commitment_bytes

/-- The source's `verify_packet_ack_proof`: trusted state via the Trust
Resolver, then membership of the raw acknowledgement bytes at the ack
path. -/
def verify_packet_ack_proof (E : Env) (connection : ConnectionEnd)
    (msg : MsgAcknowledgement) : Except Err Unit := do
  let tc ← get_trusted_client_and_consensus_state E connection.clientId
    msg.proof_height_on_b connection
  let ack_path := Path.ack msg.packet.port_on_b msg.packet.chan_on_b
    msg.packet.sequence
  let proof ← E.decode_proof msg.proof_acked_on_b
  verify_merkle_proof E tc.1.proofSpecs connection.counterparty.pfx proof
    tc.2.root ack_path msg.acknowledgement

/-- The source's `verify_packet_timeout_proof`: trusted state via the Trust
Resolver, then membership of the encoded next receive sequence at the
sequence-receive path. -/
def verify_packet_timeout_proof (E : Env) (connection : ConnectionEnd)
    (msg : MsgTimeout) : Except Err Unit := do
  let tc ← get_trusted_client_and_consensus_state E connection.clientId
    msg.proof_height_on_b connection
  let seq_bytes := E.encode_u64 msg.next_seq_recv_on_b
  let seq_path := Path.seqRecv msg.packet.port_on_b msg.packet.chan_on_b
  let proof ← E.decode_proof msg.proof_unreceived_on_b
  verify_merkle_proof E tc.1.proofSpecs connection.counterparty.pfx proof
    tc.2.root seq_path seq_bytes

/-- The source's `verify_packet_timeout_absence_proof`: trusted state via the
Trust Resolver, then non-membership at the receipt path. -/
def verify_packet_timeout_absence_proof (E : Env) (connection : ConnectionEnd)
    (msg : MsgTimeout) : Except Err Unit := do
  let tc ← get_trusted_client_and_consensus_state E connection.clientId
    msg.proof_height_on_b connection
  let receipt_path := Path.receipt msg.packet.port_on_b msg.packet.chan_on_b
    msg.packet.sequence
  let proof ← E.decode_proof msg.proof_unreceived_on_b
  verify_merkle_absence_proof E tc.1.proofSpecs connection.counterparty.pfx proof
    tc.2.root receipt_path

/-! ### Small monadic helper lemmas -/

/-- Binding a successful `Except` computation runs the continuation. -/
theorem bindOk {α β : Type} (a : α) (f : α → Except Err β) :
    (Except.ok a >>= f) = f a := rfl

/-- Binding a failed `Except` computation propagates the error. -/
theorem bindErr {α β : Type} (e : Err) (f : α → Except Err β) :
    ((Except.error e : Except Err α) >>= f) = Except.error e := rfl

/-- Helper: the Trust Resolver rejects a frozen client immediately, whatever
the rest of the environment holds. -/
theorem trustResolver_frozen {E : Env} {client_id : String} {height : Height}
    {connection : ConnectionEnd} {cs : ClientState}
    (hc : E.client_state client_id = .ok cs) (hf : cs.frozen = true) :
    get_trusted_client_and_consensus_state E client_id height connection =
      .error .frozenClient := by
  unfold get_trusted_client_and_consensus_state
  rw [hc, bindOk]
  simp [ClientState.is_frozen, hf, throw, throwThe, MonadExceptOf.throw]
  rfl

/-! ### Concrete fixtures for witnesses and counterexamples -/

/-- A concrete commitment prefix. -/
def pfx0 : MerklePrefix := ⟨"ibc"⟩

/-- A concrete structured proof. -/
def proof0 : MerkleProof := ⟨[1, 2, 3]⟩

/-- A concrete raw proof. -/
def rawProof0 : RawProof := ⟨[1, 2, 3]⟩

/-- A concrete trusted root. -/
def root0 : List Nat := [7, 7]

/-- A concrete proof height. -/
def h5 : Height := ⟨0, 5⟩

/-- A frozen client state whose latest trusted height is far above `h5`. -/
def frozenCS : ClientState := ⟨true, ⟨0, 100⟩, [0]⟩

/-- An unfrozen client state whose latest trusted height is far above `h5`. -/
def liveCS : ClientState := ⟨false, ⟨0, 100⟩, [0]⟩

/-- A concrete consensus state carrying `root0`. -/
def cons0 : ConsensusState := ⟨root0, 0⟩

/-- A concrete expected channel end. -/
def chan0 : ChannelEnd := ⟨1, 0, "port-1", "channel-7"⟩

/-- A concrete counterparty. -/
def counterparty0 : Counterparty := ⟨"client-b", pfx0⟩

/-- A connection with the given delay period. -/
def connDelay (d : Duration) : ConnectionEnd := ⟨"client-a", counterparty0, d⟩

/-- A connection whose delay period is 100 seconds. -/
def connDelay100 : ConnectionEnd := connDelay ⟨100, 0⟩

/-- A concrete packet. -/
def packet0 : Packet :=
  ⟨1, "port-a", "chan-a", "port-b", "chan-b", [5, 6], .atHeight ⟨0, 50⟩, ⟨99⟩⟩

/-- A packet agreeing with `packet0` on timeout timestamp, timeout height and
data, and differing in sequence and every routing field. -/
def packet1 : Packet :=
  ⟨2, "port-x", "chan-x", "port-y", "chan-y", [5, 6], .atHeight ⟨0, 50⟩, ⟨99⟩⟩

/-- A concrete `MsgRecvPacket`. -/
def msgRecv0 : MsgRecvPacket := ⟨packet0, rawProof0, h5⟩

/-- A concrete `MsgAcknowledgement`. -/
def msgAck0 : MsgAcknowledgement := ⟨packet0, [9], rawProof0, h5⟩

/-- A concrete `MsgTimeout`. -/
def msgTimeout0 : MsgTimeout := ⟨packet0, 3, rawProof0, h5⟩

/-- An environment whose storage reads return the given fixed values, whose
oracle accepts every query, and whose codecs are simple total stand-ins. -/
def okEnv (cs : ClientState) (ct ch : Nat) (ph : Height) (pt : Nat) : Env where
  client_state := fun _ => .ok cs
  verified_consensus_state := fun _ _ => .ok cons0
  block_timestamp := .ok ct
  block_height := .ok ch
  client_update_height := fun _ _ => .ok ph
  client_update_time := fun _ _ => .ok pt
  verify_membership := fun _ _ _ _ _ _ => .ok ()
  verify_non_membership := fun _ _ _ _ => .ok ()
  decode_proof := fun r => .ok ⟨r.bytes⟩
  encode_channel_end := fun _ => [1]
  encode_connection_end := fun _ => [2]
  encode_client_state := fun _ => [3]
  encode_consensus_state := fun _ => [4]
  encode_u64 := fun n => [n % 256]
  sha256 := fun l => 0 :: l

/-- A proof height above `liveCS`'s latest trusted height. -/
def h200 : Height := ⟨0, 200⟩

/-- A concrete `MsgRecvPacket` at proof height 200. -/
def msgRecvH : MsgRecvPacket := ⟨packet0, rawProof0, h200⟩

/-- A concrete `MsgAcknowledgement` at proof height 200. -/
def msgAckH : MsgAcknowledgement := ⟨packet0, [9], rawProof0, h200⟩

/-- A concrete `MsgTimeout` at proof height 200. -/
def msgTimeoutH : MsgTimeout := ⟨packet0, 3, rawProof0, h200⟩

/-- A connection with no delay period, for exercising a successful Trust
Resolver run. -/
def connNoDelay : ConnectionEnd := connDelay ⟨0, 0⟩

/-! ### Lemmas about the binary64 rounding model

These establish that `flPair` implements round-to-nearest-ties-to-even
correctly enough to reason about `calculate_block_delay`: binade bounds for
`elog`, half-ulp characterisations and monotonicity for `rne`, the value and
shape of `flPair` outputs, and monotonicity of the whole `as_secs_f64` /
division / ceiling pipeline. -/

theorem bitlenAux_zero (f : Nat) : bitlenAux f 0 = 0 := by
  cases f with
  | zero => rfl
  | succ f => simp [bitlenAux]

theorem bitlenAux_spec : ∀ f n : Nat, n < 2 ^ f → 0 < n →
    2 ^ (bitlenAux f n - 1) ≤ n ∧ n < 2 ^ bitlenAux f n := by
  intro f
  induction f with
  | zero =>
      intro n hn hpos
      simp at hn
      omega
  | succ f ih =>
      intro n hn hpos
      have hne : ¬ n = 0 := by omega
      rw [bitlenAux, if_neg hne]
      by_cases hh : n / 2 = 0
      · have hn1 : n = 1 := by omega
        subst hn1
        rw [hh, bitlenAux_zero]
        norm_num
      · have hlt : n / 2 < 2 ^ f := by
          rw [pow_succ] at hn
          omega
        obtain ⟨hlo, hhi⟩ := ih (n / 2) hlt (by omega)
        set L := bitlenAux f (n / 2) with hL
        have hL1 : 1 ≤ L := by
          by_contra hc
          interval_cases L
          · simp at hhi
            omega
        have e1 : 2 ^ L = 2 * 2 ^ (L - 1) := by
          rw [← pow_succ']
          congr 1
          omega
        have e2 : 2 ^ (L + 1) = 2 * 2 ^ L := by
          rw [← pow_succ']
        constructor
        · have hsub : L + 1 - 1 = L := by omega
          rw [hsub, e1]
          omega
        · rw [e2]
          omega

theorem bitlen_spec (n : Nat) (hpos : 0 < n) :
    2 ^ (bitlen n - 1) ≤ n ∧ n < 2 ^ bitlen n :=
  bitlenAux_spec n n (Nat.lt_two_pow n) hpos

theorem bitlen_pos (n : Nat) (hn : 0 < n) : 1 ≤ bitlen n := by
  by_contra hc
  have h0 : bitlen n = 0 := by omega
  have hb := (bitlen_spec n hn).2
  rw [h0] at hb
  simp at hb
  omega

theorem two_zpow_toNat (e : Int) (he : 0 ≤ e) :
    (2 : ℚ) ^ e = ((2 ^ e.toNat : Nat) : ℚ) := by
  obtain ⟨k, rfl⟩ : ∃ k : ℕ, e = (k : ℤ) := ⟨e.toNat, (Int.toNat_of_nonneg he).symm⟩
  rw [zpow_natCast, Int.toNat_natCast]
  push_cast
  ring

theorem two_zpow_pos (e : Int) : (0 : ℚ) < 2 ^ e :=
  zpow_pos (by norm_num) e

theorem qGe_iff (a b : Nat) (hb : 0 < b) (e : Int) :
    qGe a b e = true ↔ (2 : ℚ) ^ e ≤ (a : ℚ) / (b : ℚ) := by
  have hbq : (0 : ℚ) < (b : ℚ) := by exact_mod_cast hb
  unfold qGe
  by_cases he : 0 ≤ e
  · rw [if_pos he, decide_eq_true_eq, le_div_iff₀ hbq, two_zpow_toNat e he,
      ← Nat.cast_mul, Nat.cast_le, Nat.mul_comm]
  · rw [if_neg he, decide_eq_true_eq, le_div_iff₀ hbq]
    have hene : (0 : ℤ) ≤ -e := by omega
    have hcast : (b ≤ a * 2 ^ (-e).toNat) ↔ ((b : ℚ) ≤ (a : ℚ) * (2 : ℚ) ^ (-e)) := by
      rw [two_zpow_toNat (-e) hene, ← Nat.cast_mul, Nat.cast_le]
    rw [hcast]
    have hprod : (2 : ℚ) ^ e * (2 : ℚ) ^ (-e) = 1 := by
      rw [← zpow_add₀ (by norm_num : (2 : ℚ) ≠ 0)]
      simp
    constructor
    · intro h
      have h2 := mul_le_mul_of_nonneg_left h (le_of_lt (two_zpow_pos e))
      calc (2 : ℚ) ^ e * b ≤ (2 : ℚ) ^ e * ((a : ℚ) * (2 : ℚ) ^ (-e)) := h2
        _ = (a : ℚ) * ((2 : ℚ) ^ e * (2 : ℚ) ^ (-e)) := by ring
        _ = a := by rw [hprod, mul_one]
    · intro h
      have h2 := mul_le_mul_of_nonneg_left h (le_of_lt (two_zpow_pos (-e)))
      calc (b : ℚ) = (2 : ℚ) ^ (-e) * ((2 : ℚ) ^ e * b) := by
            rw [← mul_assoc, mul_comm ((2 : ℚ) ^ (-e)), hprod, one_mul]
        _ ≤ (2 : ℚ) ^ (-e) * a := h2
        _ = (a : ℚ) * (2 : ℚ) ^ (-e) := by ring

theorem two_zpow_natCast (k : Nat) : (2 : ℚ) ^ (k : ℤ) = ((2 ^ k : Nat) : ℚ) := by
  rw [zpow_natCast]
  push_cast
  ring

theorem elog_correct (a b : Nat) (ha : 0 < a) (hb : 0 < b) :
    (2 : ℚ) ^ elog a b ≤ (a : ℚ) / b ∧ (a : ℚ) / b < (2 : ℚ) ^ (elog a b + 1) := by
  have hbq : (0 : ℚ) < (b : ℚ) := by exact_mod_cast hb
  obtain ⟨la1, la2⟩ := bitlen_spec a ha
  obtain ⟨lb1, lb2⟩ := bitlen_spec b hb
  have hla := bitlen_pos a ha
  have hlb := bitlen_pos b hb
  set d : ℤ := (bitlen a : ℤ) - (bitlen b : ℤ) with hd
  have cast_la : (2 : ℚ) ^ ((bitlen a : ℤ)) = ((2 ^ bitlen a : Nat) : ℚ) :=
    two_zpow_natCast _
  have cast_lb : (2 : ℚ) ^ ((bitlen b : ℤ)) = ((2 ^ bitlen b : Nat) : ℚ) :=
    two_zpow_natCast _
  have cast_la1 : (2 : ℚ) ^ ((bitlen a : ℤ) - 1) = ((2 ^ (bitlen a - 1) : Nat) : ℚ) := by
    rw [show (bitlen a : ℤ) - 1 = ((bitlen a - 1 : Nat) : ℤ) by omega]
    exact two_zpow_natCast _
  have cast_lb1 : (2 : ℚ) ^ ((bitlen b : ℤ) - 1) = ((2 ^ (bitlen b - 1) : Nat) : ℚ) := by
    rw [show (bitlen b : ℤ) - 1 = ((bitlen b - 1 : Nat) : ℤ) by omega]
    exact two_zpow_natCast _
  have hup : (a : ℚ) / b < (2 : ℚ) ^ (d + 1) := by
    rw [div_lt_iff₀ hbq]
    calc (a : ℚ) < ((2 ^ bitlen a : Nat) : ℚ) := by exact_mod_cast la2
      _ = (2 : ℚ) ^ ((bitlen a : ℤ)) := cast_la.symm
      _ = (2 : ℚ) ^ (d + 1) * (2 : ℚ) ^ ((bitlen b : ℤ) - 1) := by
          rw [← zpow_add₀ (by norm_num : (2 : ℚ) ≠ 0)]
          congr 1
          omega
      _ = (2 : ℚ) ^ (d + 1) * ((2 ^ (bitlen b - 1) : Nat) : ℚ) := by rw [cast_lb1]
      _ ≤ (2 : ℚ) ^ (d + 1) * b := by
          have hle : ((2 ^ (bitlen b - 1) : Nat) : ℚ) ≤ (b : ℚ) := by exact_mod_cast lb1
          exact mul_le_mul_of_nonneg_left hle (le_of_lt (two_zpow_pos _))
  have hlow : (2 : ℚ) ^ (d - 1) < (a : ℚ) / b := by
    rw [lt_div_iff₀ hbq]
    calc (2 : ℚ) ^ (d - 1) * b < (2 : ℚ) ^ (d - 1) * ((2 ^ bitlen b : Nat) : ℚ) := by
          have hlt : (b : ℚ) < ((2 ^ bitlen b : Nat) : ℚ) := by exact_mod_cast lb2
          exact mul_lt_mul_of_pos_left hlt (two_zpow_pos _)
      _ = (2 : ℚ) ^ (d - 1) * (2 : ℚ) ^ ((bitlen b : ℤ)) := by rw [cast_lb]
      _ = (2 : ℚ) ^ ((bitlen a : ℤ) - 1) := by
          rw [← zpow_add₀ (by norm_num : (2 : ℚ) ≠ 0)]
          congr 1
          omega
      _ = ((2 ^ (bitlen a - 1) : Nat) : ℚ) := cast_la1
      _ ≤ (a : ℚ) := by exact_mod_cast la1
  unfold elog
  by_cases hq : qGe a b ((bitlen a : ℤ) - (bitlen b : ℤ)) = true
  · rw [if_pos hq]
    exact ⟨(qGe_iff a b hb _).mp hq, hup⟩
  · rw [if_neg hq]
    constructor
    · exact le_of_lt hlow
    · have : ¬ (2 : ℚ) ^ d ≤ (a : ℚ) / b := fun hcon => hq ((qGe_iff a b hb _).mpr hcon)
      have := lt_of_not_le this
      calc (a : ℚ) / b < (2 : ℚ) ^ d := this
        _ = (2 : ℚ) ^ (d - 1 + 1) := by congr 1; omega

theorem elog_unique (a b : Nat) (ha : 0 < a) (hb : 0 < b) (e : Int)
    (h1 : (2 : ℚ) ^ e ≤ (a : ℚ) / b) (h2 : (a : ℚ) / b < (2 : ℚ) ^ (e + 1)) :
    elog a b = e := by
  obtain ⟨c1, c2⟩ := elog_correct a b ha hb
  rcases lt_trichotomy (elog a b) e with hlt | heq | hgt
  · have : (2 : ℚ) ^ (elog a b + 1) ≤ (2 : ℚ) ^ e :=
      zpow_le_of_le (by norm_num) (by omega)
    linarith
  · exact heq
  · have : (2 : ℚ) ^ (e + 1) ≤ (2 : ℚ) ^ (elog a b) :=
      zpow_le_of_le (by norm_num) (by omega)
    linarith

theorem rne_ge_div (a b : Nat) : a / b ≤ rne a b := by
  unfold rne
  dsimp only
  split_ifs <;> omega

theorem rne_le_div_succ (a b : Nat) : rne a b ≤ a / b + 1 := by
  unfold rne
  dsimp only
  split_ifs <;> omega

theorem rne_exact (N b : Nat) (hb : 0 < b) : rne (N * b) b = N := by
  unfold rne
  dsimp only
  rw [Nat.mul_div_cancel _ hb, Nat.mul_mod_left]
  simp [hb]

theorem rne_lower (a b N : Nat) (hb : 0 < b) (h : N * b ≤ a) : N ≤ rne a b :=
  le_trans ((Nat.le_div_iff_mul_le hb).mpr h) (rne_ge_div a b)

theorem rne_upper (a b N : Nat) (hb : 0 < b) (h : a ≤ N * b) : rne a b ≤ N := by
  have hq : a / b ≤ N := by
    have hd := Nat.div_le_div_right (c := b) h
    rwa [Nat.mul_div_cancel _ hb] at hd
  rcases Nat.lt_or_ge (a / b) N with hlt | hge
  · exact le_trans (rne_le_div_succ a b) (by omega)
  · have heq : a / b = N := by omega
    have hr : a % b = 0 := by
      have hd := Nat.div_add_mod a b
      rw [heq] at hd
      have hc : b * N = N * b := by ring
      omega
    unfold rne
    dsimp only
    rw [heq, hr]
    simp [hb]

theorem div_eq_of_between (a b N : Nat) (hb : 0 < b) (hlo : N * b ≤ a)
    (hhi : a < (N + 1) * b) : a / b = N := by
  have h1 : N ≤ a / b := (Nat.le_div_iff_mul_le hb).mpr hlo
  have h2 : a / b < N + 1 := (Nat.div_lt_iff_lt_mul hb).mpr hhi
  omega

theorem rne_of_lt_half (a b N : Nat) (hb : 0 < b) (hlo : N * b ≤ a)
    (hhi : 2 * (a - N * b) < b) : rne a b = N := by
  have hq : a / b = N := by
    apply div_eq_of_between a b N hb hlo
    have : (N + 1) * b = N * b + b := by ring
    omega
  have hr : a % b = a - N * b := by
    have hd := Nat.div_add_mod a b
    rw [hq] at hd
    have hc : b * N = N * b := by ring
    omega
  unfold rne
  dsimp only
  rw [hq, hr, if_pos hhi]

theorem rne_mono (a1 b1 a2 b2 : Nat) (hb1 : 0 < b1) (hb2 : 0 < b2)
    (h : a1 * b2 ≤ a2 * b1) : rne a1 b1 ≤ rne a2 b2 := by
  have hq : a1 / b1 ≤ a2 / b2 := by
    rw [Nat.le_div_iff_mul_le hb2]
    have h1 : a1 / b1 * b1 ≤ a1 := Nat.div_mul_le_self a1 b1
    have h2 : a1 / b1 * b1 * b2 ≤ a1 * b2 := Nat.mul_le_mul_right _ h1
    have h3 : a1 / b1 * b2 * b1 ≤ a2 * b1 := by
      calc a1 / b1 * b2 * b1 = a1 / b1 * b1 * b2 := by ring
        _ ≤ a1 * b2 := h2
        _ ≤ a2 * b1 := h
    exact Nat.le_of_mul_le_mul_right h3 hb1
  rcases Nat.lt_or_ge (a1 / b1) (a2 / b2) with hlt | hge
  · have u1 := rne_le_div_succ a1 b1
    have u2 := rne_ge_div a2 b2
    omega
  · have heq : a1 / b1 = a2 / b2 := by omega
    have d1 := Nat.div_add_mod a1 b1
    have d2 := Nat.div_add_mod a2 b2
    have hr : a1 % b1 * b2 ≤ a2 % b2 * b1 := by
      have expand : b1 * (a2 / b2) * b2 + a1 % b1 * b2 ≤
          b2 * (a2 / b2) * b1 + a2 % b2 * b1 := by
        calc b1 * (a2 / b2) * b2 + a1 % b1 * b2
            = (b1 * (a1 / b1) + a1 % b1) * b2 := by rw [heq]; ring
          _ = a1 * b2 := by rw [d1]
          _ ≤ a2 * b1 := h
          _ = (b2 * (a2 / b2) + a2 % b2) * b1 := by rw [d2]
          _ = b2 * (a2 / b2) * b1 + a2 % b2 * b1 := by ring
      have e3 : b1 * (a2 / b2) * b2 = b2 * (a2 / b2) * b1 := by ring
      omega
    have key : ¬ (b1 ≤ 2 * (a1 % b1) ∧ 2 * (a2 % b2) ≤ b2 ∧
        (b1 < 2 * (a1 % b1) ∨ 2 * (a2 % b2) < b2)) := by
      rintro ⟨k1, k2, k3⟩
      have m1 : b1 * b2 ≤ 2 * (a1 % b1) * b2 := Nat.mul_le_mul_right _ k1
      have m2 : 2 * (a1 % b1) * b2 ≤ 2 * (a2 % b2) * b1 := by
        have hm := Nat.mul_le_mul_left 2 hr
        have f1 : 2 * (a1 % b1 * b2) = 2 * (a1 % b1) * b2 := by ring
        have f2 : 2 * (a2 % b2 * b1) = 2 * (a2 % b2) * b1 := by ring
        omega
      have m3 : 2 * (a2 % b2) * b1 ≤ b2 * b1 := Nat.mul_le_mul_right _ k2
      have mc : b2 * b1 = b1 * b2 := by ring
      rcases k3 with k3 | k3
      · have s1 : b1 * b2 < 2 * (a1 % b1) * b2 :=
          Nat.mul_lt_mul_of_pos_right k3 hb2
        omega
      · have s3 : 2 * (a2 % b2) * b1 < b2 * b1 :=
          Nat.mul_lt_mul_of_pos_right k3 hb1
        omega
    unfold rne
    dsimp only
    rw [heq]
    split_ifs <;> omega

theorem two_ne_zero_q : (2 : ℚ) ≠ 0 := by norm_num

theorem fVal_nonneg (x : Nat × Nat) : 0 ≤ fVal x := by
  unfold fVal
  positivity

theorem flPair_den_pos (a b : Nat) : 0 < (flPair a b).2 := by
  unfold flPair
  dsimp only
  split_ifs <;> first | norm_num | positivity

theorem val_of_den_one (M : Nat) (E : Int) (hE : 52 ≤ E) :
    fVal (M * 2 ^ (E - 52).toNat, 1) = (M : ℚ) * (2 : ℚ) ^ (E - 52) := by
  unfold fVal
  dsimp only
  rw [Nat.cast_one, div_one, Nat.cast_mul,
    ← two_zpow_toNat _ (by omega : (0 : ℤ) ≤ E - 52)]

theorem val_of_pow_den (M : Nat) (E : Int) (hE : ¬ 52 ≤ E) :
    fVal (M, 2 ^ (52 - E).toNat) = (M : ℚ) * (2 : ℚ) ^ (E - 52) := by
  unfold fVal
  dsimp only
  rw [← two_zpow_toNat _ (by omega : (0 : ℤ) ≤ 52 - E),
    div_eq_iff (ne_of_gt (two_zpow_pos _)), mul_assoc,
    ← zpow_add₀ two_ne_zero_q,
    show E - 52 + (52 - E) = (0 : ℤ) by omega, zpow_zero, mul_one]

theorem flPair_val (a b : Nat) (ha : 0 < a) :
    fVal (flPair a b) = (mant a b : ℚ) * (2 : ℚ) ^ (elog a b - 52) := by
  unfold flPair
  dsimp only
  rw [if_neg (by omega : ¬ a = 0)]
  by_cases hm : mant a b = 2 ^ 53
  · rw [if_pos hm]
    by_cases h52 : (52 : ℤ) ≤ elog a b + 1
    · rw [if_pos h52, val_of_den_one _ _ h52, hm]
      rw [show ((2 ^ 52 : Nat) : ℚ) = (2 : ℚ) ^ ((52 : Nat) : ℤ) from
          (two_zpow_natCast 52).symm,
        show ((2 ^ 53 : Nat) : ℚ) = (2 : ℚ) ^ ((53 : Nat) : ℤ) from
          (two_zpow_natCast 53).symm,
        ← zpow_add₀ two_ne_zero_q, ← zpow_add₀ two_ne_zero_q]
      congr 1
      push_cast
      omega
    · rw [if_neg h52, val_of_pow_den _ _ h52, hm]
      rw [show ((2 ^ 52 : Nat) : ℚ) = (2 : ℚ) ^ ((52 : Nat) : ℤ) from
          (two_zpow_natCast 52).symm,
        show ((2 ^ 53 : Nat) : ℚ) = (2 : ℚ) ^ ((53 : Nat) : ℤ) from
          (two_zpow_natCast 53).symm,
        ← zpow_add₀ two_ne_zero_q, ← zpow_add₀ two_ne_zero_q]
      congr 1
      push_cast
      omega
  · rw [if_neg hm]
    by_cases h52 : (52 : ℤ) ≤ elog a b
    · rw [if_pos h52, val_of_den_one _ _ h52]
    · rw [if_neg h52, val_of_pow_den _ _ h52]

theorem two_pow_toNat_q (E : Int) (h : 0 ≤ E) : (2 : ℚ) ^ E.toNat = (2 : ℚ) ^ E := by
  rw [← zpow_natCast (2 : ℚ) E.toNat, Int.toNat_of_nonneg h]

theorem mant_lower (a b : Nat) (ha : 0 < a) (hb : 0 < b) : 2 ^ 52 ≤ mant a b := by
  have hbq : (0 : ℚ) < (b : ℚ) := by exact_mod_cast hb
  obtain ⟨hlo, hhi⟩ := elog_correct a b ha hb
  have hba : (2 : ℚ) ^ elog a b * b ≤ a := (le_div_iff₀ hbq).mp hlo
  unfold mant
  by_cases h52 : elog a b ≤ 52
  · rw [if_pos h52]
    apply rne_lower _ _ _ hb
    have key := mul_le_mul_of_nonneg_left hba (le_of_lt (two_zpow_pos (52 - elog a b)))
    have hz : (2 : ℚ) ^ (52 - elog a b) * ((2 : ℚ) ^ elog a b * b) =
        (2 : ℚ) ^ ((52 : ℤ)) * b := by
      rw [← mul_assoc, ← zpow_add₀ two_ne_zero_q]
      congr 2
      omega
    rw [hz] at key
    have hc : ((2 ^ 52 * b : ℕ) : ℚ) ≤ ((a * 2 ^ (52 - elog a b).toNat : ℕ) : ℚ) := by
      push_cast
      rw [two_pow_toNat_q _ (by omega)]
      calc (2 : ℚ) ^ (52 : ℕ) * b = (2 : ℚ) ^ ((52 : ℤ)) * b := by norm_num
        _ ≤ (2 : ℚ) ^ (52 - elog a b) * a := key
        _ = (a : ℚ) * (2 : ℚ) ^ (52 - elog a b) := by ring
    exact_mod_cast hc
  · rw [if_neg h52]
    apply rne_lower _ _ _ (by positivity)
    have hc : ((2 ^ 52 * (b * 2 ^ (elog a b - 52).toNat) : ℕ) : ℚ) ≤ (a : ℚ) := by
      push_cast
      rw [two_pow_toNat_q _ (by omega)]
      calc (2 : ℚ) ^ (52 : ℕ) * ((b : ℚ) * (2 : ℚ) ^ (elog a b - 52))
          = (2 : ℚ) ^ elog a b * b := by
            rw [show ((2 : ℚ) ^ (52 : ℕ)) = (2 : ℚ) ^ ((52 : ℤ)) by norm_num,
              mul_comm (b : ℚ), ← mul_assoc, ← zpow_add₀ two_ne_zero_q]
            congr 2
            omega
        _ ≤ a := hba
    exact_mod_cast hc

theorem mant_upper (a b : Nat) (ha : 0 < a) (hb : 0 < b) : mant a b ≤ 2 ^ 53 := by
  have hbq : (0 : ℚ) < (b : ℚ) := by exact_mod_cast hb
  obtain ⟨hlo, hhi⟩ := elog_correct a b ha hb
  have hab : (a : ℚ) < (2 : ℚ) ^ (elog a b + 1) * b := (div_lt_iff₀ hbq).mp hhi
  unfold mant
  by_cases h52 : elog a b ≤ 52
  · rw [if_pos h52]
    apply rne_upper _ _ _ hb
    have key := mul_lt_mul_of_pos_left hab (two_zpow_pos (52 - elog a b))
    have hz : (2 : ℚ) ^ (52 - elog a b) * ((2 : ℚ) ^ (elog a b + 1) * b) =
        (2 : ℚ) ^ ((53 : ℤ)) * b := by
      rw [← mul_assoc, ← zpow_add₀ two_ne_zero_q]
      congr 2
      omega
    rw [hz] at key
    have hc : ((a * 2 ^ (52 - elog a b).toNat : ℕ) : ℚ) ≤ ((2 ^ 53 * b : ℕ) : ℚ) := by
      push_cast
      rw [two_pow_toNat_q _ (by omega)]
      have : (a : ℚ) * (2 : ℚ) ^ (52 - elog a b) < (2 : ℚ) ^ ((53 : ℤ)) * b := by
        calc (a : ℚ) * (2 : ℚ) ^ (52 - elog a b)
            = (2 : ℚ) ^ (52 - elog a b) * a := by ring
          _ < (2 : ℚ) ^ ((53 : ℤ)) * b := key
      calc (a : ℚ) * (2 : ℚ) ^ (52 - elog a b) ≤ (2 : ℚ) ^ ((53 : ℤ)) * b :=
            le_of_lt this
        _ = (2 : ℚ) ^ (53 : ℕ) * b := by norm_num
    exact_mod_cast hc
  · rw [if_neg h52]
    apply rne_upper _ _ _ (by positivity)
    have hc : (a : ℚ) ≤ ((2 ^ 53 * (b * 2 ^ (elog a b - 52).toNat) : ℕ) : ℚ) := by
      push_cast
      rw [two_pow_toNat_q _ (by omega)]
      have hz : (2 : ℚ) ^ (53 : ℕ) * ((b : ℚ) * (2 : ℚ) ^ (elog a b - 52)) =
          (2 : ℚ) ^ (elog a b + 1) * b := by
        rw [show ((2 : ℚ) ^ (53 : ℕ)) = (2 : ℚ) ^ ((53 : ℤ)) by norm_num,
          mul_comm (b : ℚ), ← mul_assoc, ← zpow_add₀ two_ne_zero_q]
        congr 2
        omega
      rw [show (9007199254740992 : ℚ) = (2 : ℚ) ^ (53 : ℕ) by norm_num, hz]
      exact le_of_lt hab
    exact_mod_cast hc

theorem flPair_lower (a b : Nat) (ha : 0 < a) (hb : 0 < b) :
    (2 : ℚ) ^ elog a b ≤ fVal (flPair a b) := by
  rw [flPair_val a b ha]
  have h1 : ((2 ^ 52 : ℕ) : ℚ) ≤ (mant a b : ℚ) := by
    exact_mod_cast mant_lower a b ha hb
  calc (2 : ℚ) ^ elog a b = (2 : ℚ) ^ ((52 : ℤ)) * (2 : ℚ) ^ (elog a b - 52) := by
        rw [← zpow_add₀ two_ne_zero_q]
        congr 1
        omega
    _ ≤ (mant a b : ℚ) * (2 : ℚ) ^ (elog a b - 52) := by
        apply mul_le_mul_of_nonneg_right _ (le_of_lt (two_zpow_pos _))
        calc (2 : ℚ) ^ ((52 : ℤ)) = ((2 ^ 52 : ℕ) : ℚ) := by norm_num
          _ ≤ (mant a b : ℚ) := h1

theorem flPair_upper (a b : Nat) (ha : 0 < a) (hb : 0 < b) :
    fVal (flPair a b) ≤ (2 : ℚ) ^ (elog a b + 1) := by
  rw [flPair_val a b ha]
  have h1 : (mant a b : ℚ) ≤ ((2 ^ 53 : ℕ) : ℚ) := by
    exact_mod_cast mant_upper a b ha hb
  calc (mant a b : ℚ) * (2 : ℚ) ^ (elog a b - 52)
      ≤ (2 : ℚ) ^ ((53 : ℤ)) * (2 : ℚ) ^ (elog a b - 52) := by
        apply mul_le_mul_of_nonneg_right _ (le_of_lt (two_zpow_pos _))
        calc (mant a b : ℚ) ≤ ((2 ^ 53 : ℕ) : ℚ) := h1
          _ = (2 : ℚ) ^ ((53 : ℤ)) := by norm_num
    _ = (2 : ℚ) ^ (elog a b + 1) := by
        rw [← zpow_add₀ two_ne_zero_q]
        congr 1
        omega

theorem flPair_pos (a b : Nat) (ha : 0 < a) (hb : 0 < b) : 0 < fVal (flPair a b) :=
  lt_of_lt_of_le (two_zpow_pos _) (flPair_lower a b ha hb)

theorem flPair_zero_left (b : Nat) : flPair 0 b = (0, 1) := by
  unfold flPair
  simp

theorem fVal_zero_pair : fVal (0, 1) = 0 := by
  unfold fVal
  norm_num

theorem flPair_num_pos (a b : Nat) (ha : 0 < a) (hb : 0 < b) : 0 < (flPair a b).1 := by
  by_contra hc
  have h0 : (flPair a b).1 = 0 := by omega
  have hp := flPair_pos a b ha hb
  unfold fVal at hp
  rw [h0] at hp
  norm_num at hp

theorem flPair_mono (a1 b1 a2 b2 : Nat) (hb1 : 0 < b1) (hb2 : 0 < b2)
    (h : (a1 : ℚ) / b1 ≤ (a2 : ℚ) / b2) :
    fVal (flPair a1 b1) ≤ fVal (flPair a2 b2) := by
  rcases Nat.eq_zero_or_pos a1 with rfl | ha1
  · rw [flPair_zero_left, fVal_zero_pair]
    exact fVal_nonneg _
  have ha2 : 0 < a2 := by
    by_contra hc
    have h0 : a2 = 0 := by omega
    subst h0
    rw [show ((0 : ℕ) : ℚ) / b2 = 0 by norm_num] at h
    have hpos : (0 : ℚ) < (a1 : ℚ) / b1 := by
      apply div_pos
      · exact_mod_cast ha1
      · exact_mod_cast hb1
    linarith
  obtain ⟨lo1, hi1⟩ := elog_correct a1 b1 ha1 hb1
  obtain ⟨lo2, hi2⟩ := elog_correct a2 b2 ha2 hb2
  have he12 : elog a1 b1 ≤ elog a2 b2 := by
    have hlt : (2 : ℚ) ^ elog a1 b1 < (2 : ℚ) ^ (elog a2 b2 + 1) :=
      lt_of_le_of_lt (le_trans lo1 h) hi2
    have := (zpow_lt_zpow_iff_right₀ (by norm_num : (1 : ℚ) < 2)).mp hlt
    omega
  rcases eq_or_lt_of_le he12 with heq | hlt
  · rw [flPair_val a1 b1 ha1, flPair_val a2 b2 ha2, ← heq]
    apply mul_le_mul_of_nonneg_right _ (le_of_lt (two_zpow_pos _))
    have hcross : a1 * b2 ≤ a2 * b1 := by
      have h2 := (div_le_div_iff (by exact_mod_cast hb1 : (0:ℚ) < b1)
        (by exact_mod_cast hb2 : (0:ℚ) < b2)).mp h
      exact_mod_cast h2
    have hmant : mant a1 b1 ≤ mant a2 b2 := by
      unfold mant
      rw [← heq]
      by_cases h52 : elog a1 b1 ≤ 52
      · rw [if_pos h52, if_pos h52]
        apply rne_mono _ _ _ _ hb1 hb2
        calc a1 * 2 ^ (52 - elog a1 b1).toNat * b2
            = a1 * b2 * 2 ^ (52 - elog a1 b1).toNat := by ring
          _ ≤ a2 * b1 * 2 ^ (52 - elog a1 b1).toNat := Nat.mul_le_mul_right _ hcross
          _ = a2 * 2 ^ (52 - elog a1 b1).toNat * b1 := by ring
      · rw [if_neg h52, if_neg h52]
        apply rne_mono _ _ _ _ (by positivity) (by positivity)
        calc a1 * (b2 * 2 ^ (elog a1 b1 - 52).toNat)
            = a1 * b2 * 2 ^ (elog a1 b1 - 52).toNat := by ring
          _ ≤ a2 * b1 * 2 ^ (elog a1 b1 - 52).toNat := Nat.mul_le_mul_right _ hcross
          _ = a2 * (b1 * 2 ^ (elog a1 b1 - 52).toNat) := by ring
    exact_mod_cast hmant
  · calc fVal (flPair a1 b1) ≤ (2 : ℚ) ^ (elog a1 b1 + 1) := flPair_upper a1 b1 ha1 hb1
      _ ≤ (2 : ℚ) ^ elog a2 b2 := zpow_le_zpow_right₀ (by norm_num) (by omega)
      _ ≤ fVal (flPair a2 b2) := flPair_lower a2 b2 ha2 hb2

theorem flPair_shape (a b : Nat) (ha : 0 < a) (hb : 0 < b) :
    ∃ M : Nat, ∃ E : Int, 2 ^ 52 ≤ M ∧ M < 2 ^ 53 ∧
      fVal (flPair a b) = (M : ℚ) * (2 : ℚ) ^ (E - 52) := by
  by_cases hm : mant a b = 2 ^ 53
  · refine ⟨2 ^ 52, elog a b + 1, le_refl _, by norm_num, ?_⟩
    rw [flPair_val a b ha, hm,
      show ((2 ^ 53 : ℕ) : ℚ) = (2 : ℚ) ^ ((53 : ℤ)) by norm_num,
      show ((2 ^ 52 : ℕ) : ℚ) = (2 : ℚ) ^ ((52 : ℤ)) by norm_num,
      ← zpow_add₀ two_ne_zero_q, ← zpow_add₀ two_ne_zero_q]
    congr 1
    omega
  · exact ⟨mant a b, elog a b, mant_lower a b ha hb,
      lt_of_le_of_ne (mant_upper a b ha hb) hm, flPair_val a b ha⟩

theorem flPair_exact (k b : Nat) (hb : 0 < b) (hk : k ≤ 2 ^ 53) :
    fVal (flPair (k * b) b) = k := by
  rcases Nat.eq_zero_or_pos k with rfl | hkpos
  · rw [zero_mul, flPair_zero_left, fVal_zero_pair]
    norm_num
  have ha : 0 < k * b := by positivity
  have hbq : (0 : ℚ) < (b : ℚ) := by exact_mod_cast hb
  have hval : ((k * b : ℕ) : ℚ) / (b : ℚ) = (k : ℚ) := by
    push_cast
    field_simp
  obtain ⟨lo, hi⟩ := elog_correct (k * b) b ha hb
  rw [hval] at lo hi
  by_cases h52 : elog (k * b) b ≤ 52
  · rw [flPair_val _ _ ha]
    have hmant : mant (k * b) b = k * 2 ^ (52 - elog (k * b) b).toNat := by
      unfold mant
      rw [if_pos h52, show k * b * 2 ^ (52 - elog (k * b) b).toNat
        = k * 2 ^ (52 - elog (k * b) b).toNat * b by ring, rne_exact _ _ hb]
    rw [hmant]
    push_cast
    rw [two_pow_toNat_q _ (by omega), mul_assoc, ← zpow_add₀ two_ne_zero_q,
      show (52 : ℤ) - elog (k * b) b + (elog (k * b) b - 52) = 0 by omega,
      zpow_zero, mul_one]
  · have hk53 : k = 2 ^ 53 := by
      have h1 : (2 : ℚ) ^ ((53 : ℤ)) ≤ (2 : ℚ) ^ elog (k * b) b :=
        zpow_le_zpow_right₀ (by norm_num) (by omega)
      have h2 : ((2 ^ 53 : ℕ) : ℚ) ≤ (k : ℚ) := by
        calc ((2 ^ 53 : ℕ) : ℚ) = (2 : ℚ) ^ ((53 : ℤ)) := by norm_num
          _ ≤ (2 : ℚ) ^ elog (k * b) b := h1
          _ ≤ (k : ℚ) := lo
      have : 2 ^ 53 ≤ k := by exact_mod_cast h2
      omega
    have he53 : elog (k * b) b = 53 := by
      have hup : (k : ℚ) < (2 : ℚ) ^ (elog (k * b) b + 1) := hi
      have h1 : (2 : ℚ) ^ ((53 : ℤ)) < (2 : ℚ) ^ (elog (k * b) b + 1) := by
        calc (2 : ℚ) ^ ((53 : ℤ)) = ((2 ^ 53 : ℕ) : ℚ) := by norm_num
          _ ≤ (k : ℚ) := by exact_mod_cast hk53.ge
          _ < _ := hup
      have hge := (zpow_lt_zpow_iff_right₀ (by norm_num : (1 : ℚ) < 2)).mp h1
      have hle : (2 : ℚ) ^ elog (k * b) b ≤ (2 : ℚ) ^ ((53 : ℤ)) := by
        calc (2 : ℚ) ^ elog (k * b) b ≤ (k : ℚ) := lo
          _ = ((2 ^ 53 : ℕ) : ℚ) := by rw [hk53]
          _ = (2 : ℚ) ^ ((53 : ℤ)) := by norm_num
      have := (zpow_le_zpow_iff_right₀ (by norm_num : (1 : ℚ) < 2)).mp hle
      omega
    rw [flPair_val _ _ ha]
    have hmant : mant (k * b) b = 2 ^ 52 := by
      unfold mant
      rw [if_neg h52, he53]
      rw [show ((53 : ℤ) - 52).toNat = 1 by rfl, hk53,
        show 2 ^ 53 * b = 2 ^ 52 * (b * 2 ^ 1) by ring, rne_exact _ _ (by positivity)]
    rw [hmant, he53, hk53]
    norm_num

theorem pair_add_val (x y : Nat × Nat) (hx : 0 < x.2) (hy : 0 < y.2) :
    ((x.1 * y.2 + y.1 * x.2 : ℕ) : ℚ) / ((x.2 * y.2 : ℕ) : ℚ) = fVal x + fVal y := by
  unfold fVal
  have hx2 : (x.2 : ℚ) ≠ 0 := by
    have : (0 : ℚ) < (x.2 : ℚ) := by exact_mod_cast hx
    linarith
  have hy2 : (y.2 : ℚ) ≠ 0 := by
    have : (0 : ℚ) < (y.2 : ℚ) := by exact_mod_cast hy
    linarith
  push_cast
  field_simp
  try ring

theorem pair_div_val (x y : Nat × Nat) (hx : 0 < x.2) (hy1 : 0 < y.1) (hy2 : 0 < y.2) :
    ((x.1 * y.2 : ℕ) : ℚ) / ((x.2 * y.1 : ℕ) : ℚ) = fVal x / fVal y := by
  unfold fVal
  have hx2 : (x.2 : ℚ) ≠ 0 := by
    have : (0 : ℚ) < (x.2 : ℚ) := by exact_mod_cast hx
    linarith
  have hy2' : (y.2 : ℚ) ≠ 0 := by
    have : (0 : ℚ) < (y.2 : ℚ) := by exact_mod_cast hy2
    linarith
  have hy1' : (y.1 : ℚ) ≠ 0 := by
    have : (0 : ℚ) < (y.1 : ℚ) := by exact_mod_cast hy1
    linarith
  push_cast
  field_simp
  try ring

theorem fAdd_mono (x1 y1 x2 y2 : Nat × Nat) (hx1 : 0 < x1.2) (hy1 : 0 < y1.2)
    (hx2 : 0 < x2.2) (hy2 : 0 < y2.2)
    (h : fVal x1 + fVal y1 ≤ fVal x2 + fVal y2) :
    fVal (fAdd x1 y1) ≤ fVal (fAdd x2 y2) := by
  unfold fAdd
  apply flPair_mono _ _ _ _ (by positivity) (by positivity)
  rw [pair_add_val _ _ hx1 hy1, pair_add_val _ _ hx2 hy2]
  exact h

theorem fVal_pos_of_pos (y : Nat × Nat) (hy1 : 0 < y.1) (hy2 : 0 < y.2) :
    0 < fVal y := by
  unfold fVal
  apply div_pos
  · exact_mod_cast hy1
  · exact_mod_cast hy2

theorem fDiv_mono_num (x1 x2 y : Nat × Nat) (hx1 : 0 < x1.2) (hx2 : 0 < x2.2)
    (hy1 : 0 < y.1) (hy2 : 0 < y.2) (h : fVal x1 ≤ fVal x2) :
    fVal (fDiv x1 y) ≤ fVal (fDiv x2 y) := by
  unfold fDiv
  apply flPair_mono _ _ _ _ (by positivity) (by positivity)
  rw [pair_div_val _ _ hx1 hy1 hy2, pair_div_val _ _ hx2 hy1 hy2]
  exact (div_le_div_right (fVal_pos_of_pos y hy1 hy2)).mpr h

theorem ceilDiv_le (a b c : Nat) (hb : 0 < b) (h : a ≤ c * b) :
    (a + b - 1) / b ≤ c := by
  rw [Nat.div_le_iff_le_mul_add_pred hb]
  have hcomm : b * c = c * b := by ring
  omega

theorem le_ceilDiv_mul (a b : Nat) (hb : 0 < b) : a ≤ (a + b - 1) / b * b := by
  have hd := Nat.div_add_mod (a + b - 1) b
  have hm := Nat.mod_lt (a + b - 1) hb
  have hcomm : b * ((a + b - 1) / b) = (a + b - 1) / b * b := by ring
  omega

theorem fCeilU64_mono (x1 x2 : Nat × Nat) (h1 : 0 < x1.2) (h2 : 0 < x2.2)
    (h : fVal x1 ≤ fVal x2) : fCeilU64 x1 ≤ fCeilU64 x2 := by
  unfold fCeilU64
  apply min_le_min _ (le_refl _)
  have hq2 : (0 : ℚ) < (x2.2 : ℚ) := by exact_mod_cast h2
  have hq1 : (0 : ℚ) < (x1.2 : ℚ) := by exact_mod_cast h1
  have hv2 : fVal x2 ≤ (((x2.1 + x2.2 - 1) / x2.2 : ℕ) : ℚ) := by
    unfold fVal
    rw [div_le_iff₀ hq2]
    have hn := le_ceilDiv_mul x2.1 x2.2 h2
    exact_mod_cast hn
  have hv1 : fVal x1 ≤ (((x2.1 + x2.2 - 1) / x2.2 : ℕ) : ℚ) := le_trans h hv2
  apply ceilDiv_le _ _ _ h1
  unfold fVal at hv1
  rw [div_le_iff₀ hq1] at hv1
  exact_mod_cast hv1

theorem fOfNat_den_pos (n : Nat) : 0 < (fOfNat n).2 := by
  unfold fOfNat
  exact flPair_den_pos _ _

theorem fOfNat_num_pos (n : Nat) (h : 0 < n) : 0 < (fOfNat n).1 := by
  unfold fOfNat
  exact flPair_num_pos _ _ h one_pos

theorem fDiv_den_pos (x y : Nat × Nat) : 0 < (fDiv x y).2 := by
  unfold fDiv
  exact flPair_den_pos _ _

theorem fOfNat_exact (n : Nat) (h : n ≤ 2 ^ 53) : fVal (fOfNat n) = n := by
  unfold fOfNat
  have hf := flPair_exact n 1 (by norm_num) h
  rwa [mul_one] at hf

theorem fOfNat_mono (m n : Nat) (h : m ≤ n) : fVal (fOfNat m) ≤ fVal (fOfNat n) := by
  unfold fOfNat
  apply flPair_mono _ _ _ _ one_pos one_pos
  rw [Nat.cast_one, div_one, div_one]
  exact_mod_cast h

theorem fOfNat_int (n : Nat) : ∃ k : Nat, fVal (fOfNat n) = (k : ℚ) := by
  rcases le_or_lt n (2 ^ 53) with hle | hgt
  · exact ⟨n, fOfNat_exact n hle⟩
  · have ha : 0 < n := by omega
    obtain ⟨lo, hi⟩ := elog_correct n 1 ha one_pos
    rw [Nat.cast_one, div_one] at lo hi
    have he : (52 : ℤ) ≤ elog n 1 := by
      have hq : (2 : ℚ) ^ ((53 : ℤ)) < (2 : ℚ) ^ (elog n 1 + 1) := by
        calc (2 : ℚ) ^ ((53 : ℤ)) = ((2 ^ 53 : ℕ) : ℚ) := by norm_num
          _ < (n : ℚ) := by exact_mod_cast hgt
          _ < _ := hi
      have h3 := (zpow_lt_zpow_iff_right₀ (by norm_num : (1 : ℚ) < 2)).mp hq
      omega
    refine ⟨mant n 1 * 2 ^ (elog n 1 - 52).toNat, ?_⟩
    unfold fOfNat
    rw [flPair_val n 1 ha]
    push_cast
    rw [two_pow_toNat_q _ (by omega)]

set_option maxRecDepth 1000000 in
theorem frac_lt_one (n : Nat) (hn : n < nanosPerSec) :
    fVal (fDiv (fOfNat n) (fOfNat nanosPerSec)) < 1 := by
  have hGnum : 0 < (fOfNat nanosPerSec).1 :=
    fOfNat_num_pos _ (by norm_num [nanosPerSec])
  have hmono : fVal (fDiv (fOfNat n) (fOfNat nanosPerSec)) ≤
      fVal (fDiv (fOfNat 999999999) (fOfNat nanosPerSec)) := by
    apply fDiv_mono_num _ _ _ (fOfNat_den_pos _) (fOfNat_den_pos _) hGnum
      (fOfNat_den_pos _)
    apply fOfNat_mono
    unfold nanosPerSec at hn
    omega
  have hconc : fDiv (fOfNat 999999999) (fOfNat nanosPerSec) =
      (9007199245733793, 9007199254740992) := by decide
  rw [hconc] at hmono
  have hlt : fVal (9007199245733793, 9007199254740992) < 1 := by
    unfold fVal
    norm_num
  linarith

theorem fAdd_int_big (S y : Nat × Nat) (k M : Nat) (E : Int)
    (hS2 : 0 < S.2) (hy2 : 0 < y.2)
    (hSv : fVal S = (k : ℚ)) (hk : 2 ^ 53 ≤ k)
    (hM1 : 2 ^ 52 ≤ M) (hM2 : M < 2 ^ 53)
    (hkME : (k : ℚ) = (M : ℚ) * (2 : ℚ) ^ (E - 52))
    (hy0 : 0 ≤ fVal y) (hy1 : fVal y < 1) :
    fVal (fAdd S y) = (k : ℚ) := by
  have hkq : ((2 ^ 53 : ℕ) : ℚ) ≤ (k : ℚ) := by exact_mod_cast hk
  have hE53 : (53 : ℤ) ≤ E := by
    by_contra hc
    push_neg at hc
    have hp1 : (2 : ℚ) ^ (E - 52) ≤ 1 := by
      calc (2 : ℚ) ^ (E - 52) ≤ (2 : ℚ) ^ ((0 : ℤ)) :=
            zpow_le_zpow_right₀ (by norm_num) (by omega)
        _ = 1 := by norm_num
    have hp2 : (k : ℚ) ≤ (M : ℚ) := by
      calc (k : ℚ) = (M : ℚ) * (2 : ℚ) ^ (E - 52) := hkME
        _ ≤ (M : ℚ) * 1 := mul_le_mul_of_nonneg_left hp1 (by positivity)
        _ = M := mul_one _
    have hp3 : (M : ℚ) < ((2 ^ 53 : ℕ) : ℚ) := by exact_mod_cast hM2
    linarith
  have hpow2 : (2 : ℚ) ≤ (2 : ℚ) ^ (E - 52) := by
    calc (2 : ℚ) = (2 : ℚ) ^ ((1 : ℤ)) := by norm_num
      _ ≤ _ := zpow_le_zpow_right₀ (by norm_num) (by omega)
  unfold fAdd
  have hBpos : 0 < S.2 * y.2 := by positivity
  have hval : ((S.1 * y.2 + y.1 * S.2 : ℕ) : ℚ) / ((S.2 * y.2 : ℕ) : ℚ)
      = (k : ℚ) + fVal y := by rw [pair_add_val S y hS2 hy2, hSv]
  have hkpos : (0 : ℚ) < (k : ℚ) := by
    calc (0 : ℚ) < ((2 ^ 53 : ℕ) : ℚ) := by norm_num
      _ ≤ (k : ℚ) := hkq
  have hApos : 0 < S.1 * y.2 + y.1 * S.2 := by
    by_contra hc
    have h0 : S.1 * y.2 + y.1 * S.2 = 0 := by omega
    rw [h0] at hval
    norm_num at hval
    linarith
  have hM1q : ((2 ^ 52 : ℕ) : ℚ) ≤ (M : ℚ) := by exact_mod_cast hM1
  have hlo : (2 : ℚ) ^ E ≤ ((S.1 * y.2 + y.1 * S.2 : ℕ) : ℚ) / ((S.2 * y.2 : ℕ) : ℚ) := by
    rw [hval]
    calc (2 : ℚ) ^ E = (2 : ℚ) ^ ((52 : ℤ)) * (2 : ℚ) ^ (E - 52) := by
          rw [← zpow_add₀ two_ne_zero_q]
          congr 1
          omega
      _ ≤ (M : ℚ) * (2 : ℚ) ^ (E - 52) := by
          apply mul_le_mul_of_nonneg_right _ (le_of_lt (two_zpow_pos _))
          calc (2 : ℚ) ^ ((52 : ℤ)) = ((2 ^ 52 : ℕ) : ℚ) := by norm_num
            _ ≤ (M : ℚ) := hM1q
      _ = (k : ℚ) := hkME.symm
      _ ≤ (k : ℚ) + fVal y := by linarith
  have hhi : ((S.1 * y.2 + y.1 * S.2 : ℕ) : ℚ) / ((S.2 * y.2 : ℕ) : ℚ) <
      (2 : ℚ) ^ (E + 1) := by
    rw [hval]
    have hM2q : (M : ℚ) + 1 ≤ ((2 ^ 53 : ℕ) : ℚ) := by exact_mod_cast hM2
    calc (k : ℚ) + fVal y < (k : ℚ) + 1 := by linarith
      _ = (M : ℚ) * (2 : ℚ) ^ (E - 52) + 1 := by rw [hkME]
      _ ≤ (M : ℚ) * (2 : ℚ) ^ (E - 52) + (2 : ℚ) ^ (E - 52) := by linarith
      _ = ((M : ℚ) + 1) * (2 : ℚ) ^ (E - 52) := by ring
      _ ≤ ((2 ^ 53 : ℕ) : ℚ) * (2 : ℚ) ^ (E - 52) :=
          mul_le_mul_of_nonneg_right hM2q (le_of_lt (two_zpow_pos _))
      _ = (2 : ℚ) ^ ((53 : ℤ)) * (2 : ℚ) ^ (E - 52) := by norm_num
      _ = (2 : ℚ) ^ (E + 1) := by
          rw [← zpow_add₀ two_ne_zero_q]
          congr 1
          omega
  have he : elog (S.1 * y.2 + y.1 * S.2) (S.2 * y.2) = E :=
    elog_unique _ _ hApos hBpos E hlo hhi
  have ht : (2 : ℚ) ^ (E - 52) ≠ 0 := ne_of_gt (two_zpow_pos _)
  have hB'q : ((S.2 * y.2 * 2 ^ (E - 52).toNat : ℕ) : ℚ) =
      ((S.2 * y.2 : ℕ) : ℚ) * (2 : ℚ) ^ (E - 52) := by
    push_cast
    rw [two_pow_toNat_q _ (by omega)]
  have hB'pos : 0 < S.2 * y.2 * 2 ^ (E - 52).toNat := by positivity
  have hB'qpos : (0 : ℚ) < ((S.2 * y.2 * 2 ^ (E - 52).toNat : ℕ) : ℚ) := by
    exact_mod_cast hB'pos
  have hAB' : ((S.1 * y.2 + y.1 * S.2 : ℕ) : ℚ) /
      ((S.2 * y.2 * 2 ^ (E - 52).toNat : ℕ) : ℚ) =
      (M : ℚ) + fVal y / (2 : ℚ) ^ (E - 52) := by
    rw [hB'q, div_mul_eq_div_div, hval, hkME, add_div,
      mul_div_cancel_right₀ _ ht]
  have heps0 : 0 ≤ fVal y / (2 : ℚ) ^ (E - 52) := by positivity
  have heps : fVal y / (2 : ℚ) ^ (E - 52) < 1 / 2 := by
    have hc : fVal y / (2 : ℚ) ^ (E - 52) * (2 : ℚ) ^ (E - 52) = fVal y :=
      div_mul_cancel₀ _ ht
    nlinarith [heps0, hpow2, hc, hy1]
  have hMB' : M * (S.2 * y.2 * 2 ^ (E - 52).toNat) ≤ S.1 * y.2 + y.1 * S.2 := by
    have hq : (M : ℚ) * ((S.2 * y.2 * 2 ^ (E - 52).toNat : ℕ) : ℚ) ≤
        ((S.1 * y.2 + y.1 * S.2 : ℕ) : ℚ) := by
      rw [← le_div_iff₀ hB'qpos, hAB']
      linarith
    exact_mod_cast hq
  have h2A : 2 * (S.1 * y.2 + y.1 * S.2) <
      (2 * M + 1) * (S.2 * y.2 * 2 ^ (E - 52).toNat) := by
    have hq : ((S.1 * y.2 + y.1 * S.2 : ℕ) : ℚ) <
        ((M : ℚ) + 1 / 2) * ((S.2 * y.2 * 2 ^ (E - 52).toNat : ℕ) : ℚ) := by
      rw [← div_lt_iff₀ hB'qpos, hAB']
      linarith
    have hq2 : ((2 * (S.1 * y.2 + y.1 * S.2) : ℕ) : ℚ) <
        (((2 * M + 1) * (S.2 * y.2 * 2 ^ (E - 52).toNat) : ℕ) : ℚ) := by
      push_cast
      push_cast at hq
      nlinarith [hq]
    exact_mod_cast hq2
  have h2sub : 2 * ((S.1 * y.2 + y.1 * S.2) -
      M * (S.2 * y.2 * 2 ^ (E - 52).toNat)) < S.2 * y.2 * 2 ^ (E - 52).toNat := by
    have hex : (2 * M + 1) * (S.2 * y.2 * 2 ^ (E - 52).toNat) =
        2 * (M * (S.2 * y.2 * 2 ^ (E - 52).toNat)) + S.2 * y.2 * 2 ^ (E - 52).toNat := by
      ring
    omega
  have hmant : mant (S.1 * y.2 + y.1 * S.2) (S.2 * y.2) = M := by
    unfold mant
    rw [he, if_neg (by omega : ¬ E ≤ 52)]
    exact rne_of_lt_half _ _ _ hB'pos hMB' h2sub
  rw [flPair_val _ _ hApos, hmant, he, ← hkME]

theorem asSecs_den_pos (d : Duration) : 0 < d.as_secs_f64.2 := by
  unfold Duration.as_secs_f64 fAdd
  exact flPair_den_pos _ _

theorem fDiv_num_pos (x y : Nat × Nat) (hx1 : 0 < x.1) (hx2 : 0 < x.2)
    (hy1 : 0 < y.1) (hy2 : 0 < y.2) : 0 < (fDiv x y).1 := by
  unfold fDiv
  exact flPair_num_pos _ _ (by positivity) (by positivity)

theorem asSecs_num_pos (d : Duration) (hd : d.is_zero = false) :
    0 < d.as_secs_f64.1 := by
  have hor : 0 < d.secs ∨ 0 < d.nanos := by
    rcases Nat.eq_zero_or_pos d.secs with hs | hs
    · rcases Nat.eq_zero_or_pos d.nanos with hn | hn
      · exfalso
        unfold Duration.is_zero at hd
        rw [hs, hn] at hd
        simp at hd
      · right
        exact hn
    · left
      exact hs
  unfold Duration.as_secs_f64 fAdd
  apply flPair_num_pos
  · rcases hor with hs | hn
    · exact Nat.add_pos_left
        (Nat.mul_pos (fOfNat_num_pos _ hs) (fDiv_den_pos _ _)) _
    · exact Nat.add_pos_right _
        (Nat.mul_pos
          (fDiv_num_pos _ _ (fOfNat_num_pos _ hn) (fOfNat_den_pos _)
            (fOfNat_num_pos _ (by norm_num [nanosPerSec])) (fOfNat_den_pos _))
          (fOfNat_den_pos _))
  · exact Nat.mul_pos (fOfNat_den_pos _) (fDiv_den_pos _ _)

theorem asSecs_mono (d1 d2 : Duration) (h1 : d1.nanos < nanosPerSec)
    (h2 : d2.nanos < nanosPerSec) (h : durationNanos d1 ≤ durationNanos d2) :
    fVal d1.as_secs_f64 ≤ fVal d2.as_secs_f64 := by
  unfold durationNanos nanosPerSec at h
  unfold nanosPerSec at h1 h2
  have hs : d1.secs ≤ d2.secs := by omega
  unfold Duration.as_secs_f64
  by_cases hseq : d1.secs = d2.secs
  · have hn : d1.nanos ≤ d2.nanos := by omega
    apply fAdd_mono _ _ _ _ (fOfNat_den_pos _) (fDiv_den_pos _ _)
      (fOfNat_den_pos _) (fDiv_den_pos _ _)
    rw [hseq]
    have hYm := fDiv_mono_num (fOfNat d1.nanos) (fOfNat d2.nanos)
      (fOfNat nanosPerSec) (fOfNat_den_pos _) (fOfNat_den_pos _)
      (fOfNat_num_pos _ (by norm_num [nanosPerSec])) (fOfNat_den_pos _)
      (fOfNat_mono _ _ hn)
    linarith
  · have hslt : d1.secs < d2.secs := by omega
    obtain ⟨k1, hk1⟩ := fOfNat_int d1.secs
    obtain ⟨k2, hk2⟩ := fOfNat_int d2.secs
    have hk12 : k1 ≤ k2 := by
      have hm := fOfNat_mono _ _ (le_of_lt hslt)
      rw [hk1, hk2] at hm
      exact_mod_cast hm
    have hy10 : 0 ≤ fVal (fDiv (fOfNat d1.nanos) (fOfNat nanosPerSec)) :=
      fVal_nonneg _
    have hy20 : 0 ≤ fVal (fDiv (fOfNat d2.nanos) (fOfNat nanosPerSec)) :=
      fVal_nonneg _
    have hy11 : fVal (fDiv (fOfNat d1.nanos) (fOfNat nanosPerSec)) < 1 :=
      frac_lt_one _ (by unfold nanosPerSec; omega)
    have hy21 : fVal (fDiv (fOfNat d2.nanos) (fOfNat nanosPerSec)) < 1 :=
      frac_lt_one _ (by unfold nanosPerSec; omega)
    by_cases hkeq : k1 = k2
    · have hs2big : 2 ^ 53 < d2.secs := by
        by_contra hc
        push_neg at hc
        have e1 := fOfNat_exact d1.secs (by omega)
        have e2 := fOfNat_exact d2.secs hc
        rw [hk1] at e1
        rw [hk2] at e2
        have heq : (d1.secs : ℚ) = (d2.secs : ℚ) := by rw [← e1, ← e2, hkeq]
        have heq2 : d1.secs = d2.secs := by exact_mod_cast heq
        omega
      have hkbig : 2 ^ 53 ≤ k2 := by
        have hm := fOfNat_mono (2 ^ 53) d2.secs (by omega)
        rw [fOfNat_exact _ (le_refl _), hk2] at hm
        exact_mod_cast hm
      obtain ⟨M, E, hM1, hM2, hME⟩ := flPair_shape d2.secs 1 (by omega) one_pos
      have hk2ME : (k2 : ℚ) = (M : ℚ) * (2 : ℚ) ^ (E - 52) := by
        rw [← hk2]
        unfold fOfNat
        exact hME
      have hA1 := fAdd_int_big (fOfNat d1.secs)
        (fDiv (fOfNat d1.nanos) (fOfNat nanosPerSec)) k2 M E
        (fOfNat_den_pos _) (fDiv_den_pos _ _) (by rw [hk1, hkeq]) hkbig hM1 hM2
        hk2ME hy10 hy11
      have hA2 := fAdd_int_big (fOfNat d2.secs)
        (fDiv (fOfNat d2.nanos) (fOfNat nanosPerSec)) k2 M E
        (fOfNat_den_pos _) (fDiv_den_pos _ _) hk2 hkbig hM1 hM2 hk2ME hy20 hy21
      rw [hA1, hA2]
    · have hklt : k1 < k2 := by omega
      apply fAdd_mono _ _ _ _ (fOfNat_den_pos _) (fDiv_den_pos _ _)
        (fOfNat_den_pos _) (fDiv_den_pos _ _)
      rw [hk1, hk2]
      have hk1q : (k1 : ℚ) + 1 ≤ (k2 : ℚ) := by exact_mod_cast hklt
      linarith

/-- C10: for every fixed nonzero `max_expected_time_per_block`,
`calculate_block_delay` is monotone non-decreasing in the delay period —
every step of the binary64 pipeline (the `as_secs_f64` conversions, the float
division, the exact ceiling and the saturating cast) is monotone, so
lengthening the configured delay period never yields a smaller required block
delay. -/
theorem C10_block_delay_monotone (m d1 d2 : Duration)
    (hm : m.is_zero = false)
    (h1 : d1.nanos < nanosPerSec) (h2 : d2.nanos < nanosPerSec)
    (h : durationNanos d1 ≤ durationNanos d2) :
    calculate_block_delay d1 m ≤ calculate_block_delay d2 m := by
  unfold calculate_block_delay
  simp only [hm, Bool.false_eq_true, if_false]
  apply fCeilU64_mono _ _ (fDiv_den_pos _ _) (fDiv_den_pos _ _)
  apply fDiv_mono_num _ _ _ (asSecs_den_pos d1) (asSecs_den_pos d2)
    (asSecs_num_pos m hm) (asSecs_den_pos m)
  exact asSecs_mono d1 d2 h1 h2 h

set_option maxRecDepth 1000000 in
/-- Witness for C10 at the concrete durations 61 s ≤ 100 s with a 20-second
block period. -/
theorem C10_witness :
    calculate_block_delay ⟨61, 0⟩ ⟨20, 0⟩ ≤ calculate_block_delay ⟨100, 0⟩ ⟨20, 0⟩ :=
  C10_block_delay_monotone ⟨20, 0⟩ ⟨61, 0⟩ ⟨100, 0⟩ rfl (by decide) (by decide)
    (by decide)

/-! ### Claim C1 -/

/-- C1 counterexample: the claim says every verification operation errors on a
frozen root-of-trust client state, but `verify_connection_state` performs no
frozen check — handed a frozen client state (with a satisfied height check and
an accepting oracle) it reports successful verification. -/
theorem C1_counterexample :
    frozenCS.frozen = true ∧
      verify_connection_state (okEnv frozenCS 0 0 ⟨0, 0⟩ 0) frozenCS h5 pfx0
        proof0 root0 "connection-0" (connDelay ⟨0, 0⟩) = .ok () :=
  ⟨rfl, rfl⟩

/-- C1 amended: frozen-client rejection holds for the verifiers that resolve
the client state from storage — `verify_channel_proof` and the four packet
verifiers return `FrozenClient` whenever the stored client state of the
connection's client is frozen, regardless of the proof, path, value, message
or the rest of the environment.  The three pure verifiers
(`verify_connection_state`, `verify_client_full_state`,
`verify_client_consensus_state`) take the client state as a caller-supplied
argument and perform no frozen check. -/
theorem C1_frozen_rejection_amended (E : Env) (connection : ConnectionEnd)
    (cs : ClientState) (proof : MerkleProof) (proof_height : Height)
    (channel_id port_id : String) (expected_channel : ChannelEnd)
    (m1 : MsgRecvPacket) (m2 : MsgAcknowledgement) (m3 m4 : MsgTimeout)
    (hc : E.client_state connection.clientId = .ok cs) (hf : cs.frozen = true) :
    verify_channel_proof E connection proof proof_height channel_id port_id
        expected_channel = .error .frozenClient ∧
      verify_packet_recv_proof E connection m1 = .error .frozenClient ∧
      verify_packet_ack_proof E connection m2 = .error .frozenClient ∧
      verify_packet_timeout_proof E connection m3 = .error .frozenClient ∧
      verify_packet_timeout_absence_proof E connection m4 = .error .frozenClient := by
  refine ⟨?_, ?_, ?_, ?_, ?_⟩
  · unfold verify_channel_proof
    rw [hc, bindOk]
    simp [ClientState.is_frozen, hf, throw, throwThe, MonadExceptOf.throw]
    rfl
  · unfold verify_packet_recv_proof
    rw [trustResolver_frozen hc hf, bindErr]
  · unfold verify_packet_ack_proof
    rw [trustResolver_frozen hc hf, bindErr]
  · unfold verify_packet_timeout_proof
    rw [trustResolver_frozen hc hf, bindErr]
  · unfold verify_packet_timeout_absence_proof
    rw [trustResolver_frozen hc hf, bindErr]

/-- Witness for C1's amended theorem at a concrete frozen client state,
environment, connection and messages. -/
theorem C1_witness :
    verify_channel_proof (okEnv frozenCS 0 0 ⟨0, 0⟩ 0) connDelay100 proof0 h5
        "channel-0" "port-0" chan0 = .error .frozenClient ∧
      verify_packet_recv_proof (okEnv frozenCS 0 0 ⟨0, 0⟩ 0) connDelay100 msgRecv0 =
        .error .frozenClient ∧
      verify_packet_ack_proof (okEnv frozenCS 0 0 ⟨0, 0⟩ 0) connDelay100 msgAck0 =
        .error .frozenClient ∧
      verify_packet_timeout_proof (okEnv frozenCS 0 0 ⟨0, 0⟩ 0) connDelay100 msgTimeout0 =
        .error .frozenClient ∧
      verify_packet_timeout_absence_proof (okEnv frozenCS 0 0 ⟨0, 0⟩ 0) connDelay100
        msgTimeout0 = .error .frozenClient :=
  C1_frozen_rejection_amended (okEnv frozenCS 0 0 ⟨0, 0⟩ 0) connDelay100 frozenCS
    proof0 h5 "channel-0" "port-0" chan0 msgRecv0 msgAck0 msgTimeout0 msgTimeout0
    rfl rfl

/-! ### Claim C4 -/

/-- C4: in `get_trusted_client_and_consensus_state`, a frozen fetched client
state fails the call with `FrozenClient` unconditionally and before any later
step: the result is `FrozenClient` for every environment, so it does not
depend on the consensus-state lookup, the height data or the delay data at
all. -/
theorem C4_frozen_short_circuit (E : Env) (client_id : String) (height : Height)
    (connection : ConnectionEnd) (cs : ClientState)
    (hc : E.client_state client_id = .ok cs) (hf : cs.frozen = true) :
    get_trusted_client_and_consensus_state E client_id height connection =
      .error .frozenClient :=
  trustResolver_frozen hc hf

/-- Witness for C4 at a concrete frozen client and a concrete environment. -/
theorem C4_witness :
    get_trusted_client_and_consensus_state (okEnv frozenCS 0 0 ⟨0, 0⟩ 0) "client-a"
      h5 (connDelay ⟨0, 0⟩) = .error .frozenClient :=
  C4_frozen_short_circuit (okEnv frozenCS 0 0 ⟨0, 0⟩ 0) "client-a" h5
    (connDelay ⟨0, 0⟩) frozenCS rfl rfl

/-! ### Claim C6 -/

/-- C6: `commit_packet` is the digest of the concatenation, in order, of the
big-endian timeout timestamp (nanoseconds), the big-endian timeout-height
revision number, the big-endian timeout-height revision height, and the digest
of the packet data; `commit_acknowledgement` is the digest of the raw bytes
with no framing.  Both are total Lean functions of their inputs, hence
deterministic, pure and without failure modes. -/
theorem C6_commitment_structure (sha : List Nat → List Nat) (p : Packet)
    (ack : List Nat) :
    commit_packet sha p =
        sha (u64_be_bytes p.timeout_timestamp_on_b.nanoseconds
          ++ u64_be_bytes p.timeout_height_on_b.commitment_revision_number
          ++ u64_be_bytes p.timeout_height_on_b.commitment_revision_height
          ++ sha p.data) ∧
      commit_acknowledgement sha ack = sha ack :=
  ⟨rfl, rfl⟩

/-! ### Claim C9 -/

/-- C9: `commit_packet` binds only the timeout timestamp, the timeout height
and the data — two packets agreeing on those three fields have identical
commitments whatever their sequence numbers and routing fields. -/
theorem C9_commitment_ignores_routing (sha : List Nat → List Nat) (p q : Packet)
    (hts : p.timeout_timestamp_on_b = q.timeout_timestamp_on_b)
    (hth : p.timeout_height_on_b = q.timeout_height_on_b)
    (hdata : p.data = q.data) :
    commit_packet sha p = commit_packet sha q := by
  unfold commit_packet
  rw [hts, hth, hdata]

/-- Witness for C9: two concrete packets differing in sequence number and all
four routing fields, with equal commitments. -/
theorem C9_witness :
    commit_packet (fun l => 0 :: l) packet0 = commit_packet (fun l => 0 :: l) packet1 ∧
      packet0 ≠ packet1 :=
  ⟨C9_commitment_ignores_routing (fun l => 0 :: l) packet0 packet1 rfl rfl rfl,
    by decide⟩

/-! ### Claim C2 -/

set_option maxRecDepth 1000000 in
/-- C2 counterexample: at one and the same environment and connection the
Trust Resolver rejects `(client, proof height, connection)` with
`DelayNotElapsed` (the 100-second delay period is unmet), yet
`verify_channel_proof` succeeds: the channel verifier does not invoke the
Trust Resolver and performs no delay check. -/
theorem C2_counterexample :
    get_trusted_client_and_consensus_state (okEnv liveCS 0 0 ⟨0, 10⟩ 0)
        connDelay100.clientId h5 connDelay100 = .error .delayNotElapsed ∧
      verify_channel_proof (okEnv liveCS 0 0 ⟨0, 10⟩ 0) connDelay100 proof0 h5
        "channel-0" "port-0" chan0 = .ok () :=
  ⟨rfl, rfl⟩

/-- C2 amended: `verify_channel_proof` resolves the trusted client and
consensus state inline (client fetch, frozen check, consensus fetch, height
check) without invoking the Trust Resolver, and performs no delay-period
check: it can only return `DelayNotElapsed` if a storage read or the oracle
itself produced that error. -/
theorem C2_channel_no_delay_check_amended (E : Env) (connection : ConnectionEnd)
    (proof : MerkleProof) (proof_height : Height) (channel_id port_id : String)
    (expected_channel : ChannelEnd)
    (h1 : ∀ c, E.client_state c ≠ .error .delayNotElapsed)
    (h2 : ∀ h c, E.verified_consensus_state h c ≠ .error .delayNotElapsed)
    (h3 : ∀ p s r mp v i, E.verify_membership p s r mp v i ≠ .error .delayNotElapsed) :
    verify_channel_proof E connection proof proof_height channel_id port_id
      expected_channel ≠ .error .delayNotElapsed := by
  unfold verify_channel_proof verify_merkle_proof
  cases hcs : E.client_state connection.clientId with
  | error e =>
      rw [bindErr]
      intro hcon
      obtain rfl : e = Err.delayNotElapsed := by injection hcon
      exact h1 _ hcs
  | ok cs =>
      rw [bindOk]
      cases hfz : cs.is_frozen with
      | true =>
          simp only [hfz, if_true, throw, throwThe, MonadExceptOf.throw, bindErr]
          intro hcon
          injection hcon with hcon
          exact Err.noConfusion hcon
      | false =>
          simp only [hfz, Bool.false_eq_true, if_false, pure_bind]
          cases hcons : E.verified_consensus_state proof_height connection.clientId with
          | error e =>
              rw [bindErr]
              intro hcon
              obtain rfl : e = Err.delayNotElapsed := by injection hcon
              exact h2 _ _ hcons
          | ok cons =>
              rw [bindOk]
              by_cases hlt : Height.lt cs.latestHeight proof_height = true
              · simp only [ClientState.verify_height, hlt, if_true, bindErr]
                intro hcon
                injection hcon with hcon
                exact Err.noConfusion hcon
              · simp only [ClientState.verify_height, hlt, if_false, bindOk]
                cases hm : E.verify_membership proof cs.proofSpecs cons.root
                    (connection.counterparty.pfx.apply
                      [(Path.channelEnd port_id channel_id).toStr])
                    (E.encode_channel_end expected_channel) 0 with
                | error e =>
                    rw [bindErr]
                    intro hcon
                    obtain rfl : e = Err.delayNotElapsed := by injection hcon
                    exact h3 _ _ _ _ _ _ hm
                | ok u =>
                    rw [bindOk]
                    intro hcon
                    exact Except.noConfusion hcon

/-- Witness for C2's amended theorem at a concrete environment whose
collaborators never produce `DelayNotElapsed`. -/
theorem C2_witness :
    verify_channel_proof (okEnv liveCS 0 0 ⟨0, 10⟩ 0) connDelay100 proof0 h5
      "channel-0" "port-0" chan0 ≠ .error .delayNotElapsed :=
  C2_channel_no_delay_check_amended (okEnv liveCS 0 0 ⟨0, 10⟩ 0) connDelay100
    proof0 h5 "channel-0" "port-0" chan0 (fun _ h => Except.noConfusion h)
    (fun _ _ h => Except.noConfusion h) (fun _ _ _ _ _ _ h => Except.noConfusion h)

/-! ### Claim C3 -/

/-- Helper: the delay check is exactly the conjunction of the time condition
and the block condition, failing with `DelayNotElapsed` when either is
violated. -/
theorem verify_delay_passed_eq (ct : Nat) (chh : Height) (pt : Nat) (ph : Height)
    (d : Duration) (blocks : Nat) :
    verify_delay_passed ct chh pt ph d blocks =
      if pt + durationNanos d ≤ ct ∧ Height.lt chh (ph.add blocks) = false then
        .ok () else .error .delayNotElapsed := by
  unfold verify_delay_passed
  by_cases h1 : ct < pt + durationNanos d
  · rw [if_pos h1, if_neg]
    intro hcon
    omega
  · rw [if_neg h1]
    by_cases h2 : Height.lt chh (ph.add blocks) = true
    · rw [if_pos h2, if_neg]
      intro hcon
      rw [hcon.2] at h2
      exact Bool.noConfusion h2
    · rw [if_neg h2, if_pos]
      exact ⟨by omega, by simpa using h2⟩

/-- C3: with every storage read supplied and the earlier checks passing, the
Trust Resolver succeeds exactly when `current_time ≥ processed_time +
delay_period_time` AND `current_height ≥ processed_height + delay_blocks`
(with `delay_blocks` computed by `calculate_block_delay` from the connection's
delay period and the fixed 20-second expected block time), and otherwise
fails with `DelayNotElapsed`. -/
theorem C3_delay_conjunction (E : Env) (client_id : String) (height : Height)
    (connection : ConnectionEnd) (cs : ClientState) (cons : ConsensusState)
    (ct ch : Nat) (ph : Height) (pt : Nat)
    (hc : E.client_state client_id = .ok cs) (hf : cs.frozen = false)
    (hcons : E.verified_consensus_state height client_id = .ok cons)
    (hh : Height.lt cs.latestHeight height = false)
    (hct : E.block_timestamp = .ok ct) (hch : E.block_height = .ok ch)
    (hph : E.client_update_height client_id height = .ok ph)
    (hpt : E.client_update_time client_id height = .ok pt) :
    get_trusted_client_and_consensus_state E client_id height connection =
      if pt + durationNanos connection.delayPeriod ≤ ct ∧
          Height.lt ⟨0, ch⟩
            (ph.add (calculate_block_delay connection.delayPeriod ⟨20, 0⟩)) = false
      then .ok (cs, cons) else .error .delayNotElapsed := by
  unfold get_trusted_client_and_consensus_state
  rw [hc, bindOk]
  simp only [ClientState.is_frozen, hf, Bool.false_eq_true, if_false, pure_bind]
  rw [hcons, bindOk]
  simp only [ClientState.verify_height, hh, Bool.false_eq_true, if_false, bindOk]
  rw [hct, bindOk, hch, bindOk, hph, bindOk, hpt, bindOk, verify_delay_passed_eq]
  by_cases hcond : pt + durationNanos connection.delayPeriod ≤ ct ∧
      Height.lt ⟨0, ch⟩
        (ph.add (calculate_block_delay connection.delayPeriod ⟨20, 0⟩)) = false
  · rw [if_pos hcond, if_pos hcond, bindOk]
    rfl
  · rw [if_neg hcond, if_neg hcond, bindErr]

set_option maxRecDepth 1000000 in
/-- Witness for C3 at the spec's delay scenario: `delay_period = 100 s`,
`max_expected_time_per_block = 20 s` (so 5 delay blocks), `processed_height =
10`, `processed_time = T`; at current height 15 and time `T + 150 s` the call
is accepted, at current height 14 and the same time it is rejected with
`DelayNotElapsed`. -/
theorem C3_witness :
    get_trusted_client_and_consensus_state
        (okEnv liveCS 1150000000000 15 ⟨0, 10⟩ 1000000000000) "client-a" h5
        connDelay100 = .ok (liveCS, cons0) ∧
      get_trusted_client_and_consensus_state
        (okEnv liveCS 1150000000000 14 ⟨0, 10⟩ 1000000000000) "client-a" h5
        connDelay100 = .error .delayNotElapsed := by
  constructor
  · rw [C3_delay_conjunction (okEnv liveCS 1150000000000 15 ⟨0, 10⟩ 1000000000000)
      "client-a" h5 connDelay100 liveCS cons0 1150000000000 15 ⟨0, 10⟩ 1000000000000
      rfl rfl rfl rfl rfl rfl rfl rfl, if_pos (by exact ⟨by decide, by decide⟩)]
  · rw [C3_delay_conjunction (okEnv liveCS 1150000000000 14 ⟨0, 10⟩ 1000000000000)
      "client-a" h5 connDelay100 liveCS cons0 1150000000000 14 ⟨0, 10⟩ 1000000000000
      rfl rfl rfl rfl rfl rfl rfl rfl, if_neg (by intro hcon; exact absurd hcon.2 (by decide))]

/-! ### Claim C5 -/

set_option maxRecDepth 1000000 in
/-- C5 counterexample: the claim's universal "ceiling of d/m" fails on the
code — at `d = (2^53 + 1) s`, `m = 1 s` the binary64 conversion of `d`
rounds to `2^53` (ties to even), so `calculate_block_delay` returns `2^53`,
strictly below the exact ceiling `2^53 + 1`. -/
theorem C5_counterexample :
    calculate_block_delay ⟨9007199254740993, 0⟩ ⟨1, 0⟩ = 9007199254740992 ∧
      exactCeilBlocks ⟨9007199254740993, 0⟩ ⟨1, 0⟩ = 9007199254740993 :=
  ⟨by decide, by decide⟩

set_option maxRecDepth 1000000 in
/-- C5 amended: `calculate_block_delay(d, 0) = 0` for every duration `d`;
for nonzero `m` the result is the binary64-computed ceiling of `d / m`,
which agrees with the exact ceiling when the float computation is exact —
in particular `calculate_block_delay(61 s, 20 s) = 4` and
`calculate_block_delay(40 s, 20 s) = 2`, both equal to the exact ceiling —
but can fall below the exact ceiling at extreme magnitudes
(`d ≥ 2^53` seconds). -/
theorem C5_block_delay_amended :
    (∀ d : Duration, calculate_block_delay d ⟨0, 0⟩ = 0) ∧
      calculate_block_delay ⟨61, 0⟩ ⟨20, 0⟩ = 4 ∧
      calculate_block_delay ⟨40, 0⟩ ⟨20, 0⟩ = 2 ∧
      exactCeilBlocks ⟨61, 0⟩ ⟨20, 0⟩ = 4 ∧
      exactCeilBlocks ⟨40, 0⟩ ⟨20, 0⟩ = 2 :=
  ⟨fun _ => rfl, by decide, by decide, by decide, by decide⟩

/-! ### Claim C7 -/

/-- Helper: the Trust Resolver rejects a proof height above the client's
latest trusted height with `InvalidHeight`, for every environment agreeing on
the client and consensus reads. -/
theorem trustResolver_invalidHeight {E : Env} {client_id : String}
    {height : Height} {connection : ConnectionEnd} {cs : ClientState}
    {cons : ConsensusState}
    (hc : E.client_state client_id = .ok cs) (hf : cs.frozen = false)
    (hcons : E.verified_consensus_state height client_id = .ok cons)
    (hlt : Height.lt cs.latestHeight height = true) :
    get_trusted_client_and_consensus_state E client_id height connection =
      .error .invalidHeight := by
  unfold get_trusted_client_and_consensus_state
  rw [hc, bindOk]
  simp only [ClientState.is_frozen, hf, Bool.false_eq_true, if_false, pure_bind]
  rw [hcons, bindOk]
  simp only [ClientState.verify_height, hlt, if_true, bindErr]

/-- C7: when the proof height exceeds the client's latest trusted height,
every verifier fails with `InvalidHeight` whatever the oracle fields of the
environment hold — the height check precedes any Merkle proof check, so the
oracle's answer never matters. -/
theorem C7_height_check_first (E : Env) (connection : ConnectionEnd)
    (cs : ClientState) (cons : ConsensusState) (proof_height : Height)
    (proof : MerkleProof) (channel_id port_id : String)
    (expected_channel : ChannelEnd) (pfxA : MerklePrefix) (rootA : List Nat)
    (conn_id client_id_path : String) (expected_conn : ConnectionEnd)
    (expected_cs : ClientState) (cons_client : String) (cons_epoch cons_h : Nat)
    (expected_cons : ConsensusState) (m1 : MsgRecvPacket)
    (m2 : MsgAcknowledgement) (m3 m4 : MsgTimeout)
    (hc : E.client_state connection.clientId = .ok cs) (hf : cs.frozen = false)
    (hcons : E.verified_consensus_state proof_height connection.clientId = .ok cons)
    (hlt : Height.lt cs.latestHeight proof_height = true)
    (hm1 : m1.proof_height_on_a = proof_height)
    (hm2 : m2.proof_height_on_b = proof_height)
    (hm3 : m3.proof_height_on_b = proof_height)
    (hm4 : m4.proof_height_on_b = proof_height) :
    verify_channel_proof E connection proof proof_height channel_id port_id
        expected_channel = .error .invalidHeight ∧
      verify_connection_state E cs proof_height pfxA proof rootA conn_id
        expected_conn = .error .invalidHeight ∧
      verify_client_full_state E cs proof_height pfxA proof rootA client_id_path
        expected_cs = .error .invalidHeight ∧
      verify_client_consensus_state E cs proof_height pfxA proof rootA
        cons_client cons_epoch cons_h expected_cons = .error .invalidHeight ∧
      verify_packet_recv_proof E connection m1 = .error .invalidHeight ∧
      verify_packet_ack_proof E connection m2 = .error .invalidHeight ∧
      verify_packet_timeout_proof E connection m3 = .error .invalidHeight ∧
      verify_packet_timeout_absence_proof E connection m4 = .error .invalidHeight := by
  refine ⟨?_, ?_, ?_, ?_, ?_, ?_, ?_, ?_⟩
  · unfold verify_channel_proof
    rw [hc, bindOk]
    simp only [ClientState.is_frozen, hf, Bool.false_eq_true, if_false, pure_bind]
    rw [hcons, bindOk]
    simp only [ClientState.verify_height, hlt, if_true, bindErr]
  · unfold verify_connection_state
    simp only [ClientState.verify_height, hlt, if_true, bindErr]
  · unfold verify_client_full_state
    simp only [ClientState.verify_height, hlt, if_true, bindErr]
  · unfold verify_client_consensus_state
    simp only [ClientState.verify_height, hlt, if_true, bindErr]
  · unfold verify_packet_recv_proof
    rw [hm1, trustResolver_invalidHeight hc hf hcons hlt, bindErr]
  · unfold verify_packet_ack_proof
    rw [hm2, trustResolver_invalidHeight hc hf hcons hlt, bindErr]
  · unfold verify_packet_timeout_proof
    rw [hm3, trustResolver_invalidHeight hc hf hcons hlt, bindErr]
  · unfold verify_packet_timeout_absence_proof
    rw [hm4, trustResolver_invalidHeight hc hf hcons hlt, bindErr]

/-- Witness for C7 at a concrete environment and proof height 200 (the
client's latest trusted height is 100). -/
theorem C7_witness :
    verify_channel_proof (okEnv liveCS 0 0 ⟨0, 0⟩ 0) connDelay100 proof0 h200
        "channel-0" "port-0" chan0 = .error .invalidHeight ∧
      verify_connection_state (okEnv liveCS 0 0 ⟨0, 0⟩ 0) liveCS h200 pfx0 proof0
        root0 "connection-0" connDelay100 = .error .invalidHeight ∧
      verify_client_full_state (okEnv liveCS 0 0 ⟨0, 0⟩ 0) liveCS h200 pfx0 proof0
        root0 "client-b" frozenCS = .error .invalidHeight ∧
      verify_client_consensus_state (okEnv liveCS 0 0 ⟨0, 0⟩ 0) liveCS h200 pfx0
        proof0 root0 "client-b" 0 7 cons0 = .error .invalidHeight ∧
      verify_packet_recv_proof (okEnv liveCS 0 0 ⟨0, 0⟩ 0) connDelay100 msgRecvH =
        .error .invalidHeight ∧
      verify_packet_ack_proof (okEnv liveCS 0 0 ⟨0, 0⟩ 0) connDelay100 msgAckH =
        .error .invalidHeight ∧
      verify_packet_timeout_proof (okEnv liveCS 0 0 ⟨0, 0⟩ 0) connDelay100
        msgTimeoutH = .error .invalidHeight ∧
      verify_packet_timeout_absence_proof (okEnv liveCS 0 0 ⟨0, 0⟩ 0) connDelay100
        msgTimeoutH = .error .invalidHeight :=
  C7_height_check_first (okEnv liveCS 0 0 ⟨0, 0⟩ 0) connDelay100 liveCS cons0 h200
    proof0 "channel-0" "port-0" chan0 pfx0 root0 "connection-0" "client-b"
    connDelay100 frozenCS "client-b" 0 7 cons0 msgRecvH msgAckH msgTimeoutH
    msgTimeoutH rfl rfl rfl rfl rfl rfl rfl rfl

/-! ### Claim C8 -/

/-- Helper: binding an `Except Err Unit` computation into `pure ()` is the
computation itself. -/
theorem bindUnit (x : Except Err Unit) :
    (x >>= fun _ => (pure () : Except Err Unit)) = x := by
  cases x with
  | error e => rfl
  | ok u => cases u; rfl

/-- C8: the Merkle proof adapter builds the full path by applying the prefix
to the string form of the path and returns exactly the oracle's verdict
(membership with start index 0, or non-membership); the seven
membership-based verifiers are unaffected by any replacement of the
non-membership oracle (they never invoke it); and the packet-timeout-absence
verifier's result, once the Trust Resolver and proof decoding succeed, is
exactly the non-membership verdict at the receipt path. -/
theorem C8_merkle_adapter (E : Env) (specs : List ProofSpec) (pfxA : MerklePrefix)
    (prf : MerkleProof) (root : List Nat) (path : Path) (value : List Nat)
    (f : MerkleProof → List ProofSpec → List Nat → MerklePath → Except Err Unit)
    (connection : ConnectionEnd) (proof_height : Height)
    (channel_id port_id : String) (expected_channel : ChannelEnd)
    (cs : ClientState) (conn_id client_id_path : String)
    (expected_conn : ConnectionEnd) (expected_cs : ClientState)
    (cons_client : String) (cons_epoch cons_h : Nat)
    (expected_cons : ConsensusState) (m1 : MsgRecvPacket)
    (m2 : MsgAcknowledgement) (m3 m4 : MsgTimeout)
    (tc : ClientState × ConsensusState) (prf4 : MerkleProof)
    (htc : get_trusted_client_and_consensus_state E connection.clientId
      m4.proof_height_on_b connection = .ok tc)
    (hdec : E.decode_proof m4.proof_unreceived_on_b = .ok prf4) :
    verify_merkle_proof E specs pfxA prf root path value =
        E.verify_membership prf specs root (pfxA.apply [path.toStr]) value 0 ∧
      verify_merkle_absence_proof E specs pfxA prf root path =
        E.verify_non_membership prf specs root (pfxA.apply [path.toStr]) ∧
      verify_channel_proof { E with verify_non_membership := f } connection prf
          proof_height channel_id port_id expected_channel =
        verify_channel_proof E connection prf proof_height channel_id port_id
          expected_channel ∧
      verify_connection_state { E with verify_non_membership := f } cs
          proof_height pfxA prf root conn_id expected_conn =
        verify_connection_state E cs proof_height pfxA prf root conn_id
          expected_conn ∧
      verify_client_full_state { E with verify_non_membership := f } cs
          proof_height pfxA prf root client_id_path expected_cs =
        verify_client_full_state E cs proof_height pfxA prf root client_id_path
          expected_cs ∧
      verify_client_consensus_state { E with verify_non_membership := f } cs
          proof_height pfxA prf root cons_client cons_epoch cons_h expected_cons =
        verify_client_consensus_state E cs proof_height pfxA prf root cons_client
          cons_epoch cons_h expected_cons ∧
      verify_packet_recv_proof { E with verify_non_membership := f } connection m1 =
        verify_packet_recv_proof E connection m1 ∧
      verify_packet_ack_proof { E with verify_non_membership := f } connection m2 =
        verify_packet_ack_proof E connection m2 ∧
      verify_packet_timeout_proof { E with verify_non_membership := f } connection m3 =
        verify_packet_timeout_proof E connection m3 ∧
      verify_packet_timeout_absence_proof E connection m4 =
        E.verify_non_membership prf4 tc.1.proofSpecs tc.2.root
          (connection.counterparty.pfx.apply
            [(Path.receipt m4.packet.port_on_b m4.packet.chan_on_b
              m4.packet.sequence).toStr]) := by
  refine ⟨?_, ?_, rfl, rfl, rfl, rfl, rfl, rfl, rfl, ?_⟩
  · simp only [verify_merkle_proof]
    exact bindUnit _
  · simp only [verify_merkle_absence_proof]
    exact bindUnit _
  · unfold verify_packet_timeout_absence_proof
    rw [htc, bindOk, hdec, bindOk]
    simp only [verify_merkle_absence_proof]
    exact bindUnit _

set_option maxRecDepth 1000000 in
/-- Witness for C8 at a concrete environment whose Trust Resolver run and
proof decoding succeed. -/
theorem C8_witness :
    verify_merkle_proof (okEnv liveCS 10 10 ⟨0, 0⟩ 0) [0] pfx0 proof0 root0
        (Path.channelEnd "port-0" "channel-0") [1] =
        (okEnv liveCS 10 10 ⟨0, 0⟩ 0).verify_membership proof0 [0] root0
          (pfx0.apply [(Path.channelEnd "port-0" "channel-0").toStr]) [1] 0 ∧
      verify_merkle_absence_proof (okEnv liveCS 10 10 ⟨0, 0⟩ 0) [0] pfx0 proof0
          root0 (Path.channelEnd "port-0" "channel-0") =
        (okEnv liveCS 10 10 ⟨0, 0⟩ 0).verify_non_membership proof0 [0] root0
          (pfx0.apply [(Path.channelEnd "port-0" "channel-0").toStr]) ∧
      verify_channel_proof
          { okEnv liveCS 10 10 ⟨0, 0⟩ 0 with
            verify_non_membership := fun _ _ _ _ => .error .proofVerificationFailed }
          connNoDelay proof0 h5 "channel-0" "port-0" chan0 =
        verify_channel_proof (okEnv liveCS 10 10 ⟨0, 0⟩ 0) connNoDelay proof0 h5
          "channel-0" "port-0" chan0 ∧
      verify_connection_state
          { okEnv liveCS 10 10 ⟨0, 0⟩ 0 with
            verify_non_membership := fun _ _ _ _ => .error .proofVerificationFailed }
          liveCS h5 pfx0 proof0 root0 "connection-0" connNoDelay =
        verify_connection_state (okEnv liveCS 10 10 ⟨0, 0⟩ 0) liveCS h5 pfx0
          proof0 root0 "connection-0" connNoDelay ∧
      verify_client_full_state
          { okEnv liveCS 10 10 ⟨0, 0⟩ 0 with
            verify_non_membership := fun _ _ _ _ => .error .proofVerificationFailed }
          liveCS h5 pfx0 proof0 root0 "client-b" frozenCS =
        verify_client_full_state (okEnv liveCS 10 10 ⟨0, 0⟩ 0) liveCS h5 pfx0
          proof0 root0 "client-b" frozenCS ∧
      verify_client_consensus_state
          { okEnv liveCS 10 10 ⟨0, 0⟩ 0 with
            verify_non_membership := fun _ _ _ _ => .error .proofVerificationFailed }
          liveCS h5 pfx0 proof0 root0 "client-b" 0 7 cons0 =
        verify_client_consensus_state (okEnv liveCS 10 10 ⟨0, 0⟩ 0) liveCS h5 pfx0
          proof0 root0 "client-b" 0 7 cons0 ∧
      verify_packet_recv_proof
          { okEnv liveCS 10 10 ⟨0, 0⟩ 0 with
            verify_non_membership := fun _ _ _ _ => .error .proofVerificationFailed }
          connNoDelay msgRecv0 =
        verify_packet_recv_proof (okEnv liveCS 10 10 ⟨0, 0⟩ 0) connNoDelay msgRecv0 ∧
      verify_packet_ack_proof
          { okEnv liveCS 10 10 ⟨0, 0⟩ 0 with
            verify_non_membership := fun _ _ _ _ => .error .proofVerificationFailed }
          connNoDelay msgAck0 =
        verify_packet_ack_proof (okEnv liveCS 10 10 ⟨0, 0⟩ 0) connNoDelay msgAck0 ∧
      verify_packet_timeout_proof
          { okEnv liveCS 10 10 ⟨0, 0⟩ 0 with
            verify_non_membership := fun _ _ _ _ => .error .proofVerificationFailed }
          connNoDelay msgTimeout0 =
        verify_packet_timeout_proof (okEnv liveCS 10 10 ⟨0, 0⟩ 0) connNoDelay
          msgTimeout0 ∧
      verify_packet_timeout_absence_proof (okEnv liveCS 10 10 ⟨0, 0⟩ 0) connNoDelay
          msgTimeout0 =
        (okEnv liveCS 10 10 ⟨0, 0⟩ 0).verify_non_membership ⟨rawProof0.bytes⟩
          liveCS.proofSpecs cons0.root
          (connNoDelay.counterparty.pfx.apply
            [(Path.receipt msgTimeout0.packet.port_on_b msgTimeout0.packet.chan_on_b
              msgTimeout0.packet.sequence).toStr]) :=
  C8_merkle_adapter (okEnv liveCS 10 10 ⟨0, 0⟩ 0) [0] pfx0 proof0 root0
    (Path.channelEnd "port-0" "channel-0") [1]
    (fun _ _ _ _ => .error .proofVerificationFailed) connNoDelay h5 "channel-0"
    "port-0" chan0 liveCS "connection-0" "client-b" connNoDelay frozenCS
    "client-b" 0 7 cons0 msgRecv0 msgAck0 msgTimeout0 msgTimeout0
    (liveCS, cons0) ⟨rawProof0.bytes⟩ rfl rfl

end PenumbraIbc
